import Mathlib

/-!
# gbalol, SDL2 port (`port-sdl2/main.cpp`): audio FIFO, autosave, input, frame pacer

A shallow embedding of the audio ring buffer (`systemOnWriteDataToSoundBuffer`,
`audioCallback`), of the autosave path (`emuShowOsd`, `emuUpdateSaveFile`,
`emuCheckSave`, the exit flush of `main`), of the input state (`emuHandleKey`,
the joystick poll and the input latch of `main`) and of the frame pacer
(`systemDrawScreen`, `emuRunAudio`), followed by the properties proved about
them.

Modelling conventions.
* C `int` globals are `Int`; the C remainder operator is `Int.tmod` (truncating,
  as in C), so that non-negativity of indices is something to prove, not a
  consequence of the types.  Signed overflow is not modelled: the buffer length
  never exceeds 8192 and batches are taken to be shorter than `2^31 - 8192`
  samples.
* Flags that the program only tests for zero / non-zero are `Bool`.
* The array `audioFifo` is a function from indices to samples; a sample is an
  `Int` (the 16-bit value, copied bit for bit).
* A `(pointer, length)` input pair is a `List`; the output stream of the audio
  callback is the list of its `len / 2` 16-bit words.
* `uint32_t` values (`frameCount`, `lastTime`, the ticks of `SDL_GetTicks`) are
  numbers reduced modulo `2^32` where the program does arithmetic on them.
-/

namespace Gbalol

/-! ## Audio ring buffer -/

/-- The capacity `#define AUDIO_FIFO_CAP (8192)`. -/
def AUDIO_FIFO_CAP : Int := 8192

/-- The globals read or written by the two audio routines. -/
structure AudioState where
  /-- The storage `volatile int16_t audioFifo[AUDIO_FIFO_CAP]`. -/
  audioFifo : Int → Int
  /-- The read index `audioFifoHead`. -/
  audioFifoHead : Int
  /-- The number of buffered samples `audioFifoLen`. -/
  audioFifoLen : Int
  /-- The accelerated-mode flag `turboMode`. -/
  turboMode : Bool
  /-- The chunk-produced flag `audioSent`. -/
  audioSent : Bool

/-- The state at program start: zero-initialised globals. -/
def AudioState.init : AudioState :=
  { audioFifo := fun _ => 0, audioFifoHead := 0, audioFifoLen := 0,
    turboMode := false, audioSent := false }

/-- An empty buffer (head 0, length 0) with any storage content and flags. -/
def AudioState.empty (fifo : Int → Int) (turbo sent : Bool) : AudioState :=
  { audioFifo := fifo, audioFifoHead := 0, audioFifoLen := 0,
    turboMode := turbo, audioSent := sent }

/-- The `for` loop of `systemOnWriteDataToSoundBuffer` (lines 180-187), run over
the samples `finalWave[0 .. length)` that remain to be written, with the local
write cursor `wpos`. -/
def writeLoop (s : AudioState) (wpos : Int) : List Int → AudioState
  | [] => s
  | x :: rest =>
    if s.audioFifoLen ≥ AUDIO_FIFO_CAP then s
    else
      writeLoop
        { s with audioFifo := Function.update s.audioFifo wpos x,
                 audioFifoLen := s.audioFifoLen + 1 }
        (Int.tmod (wpos + 1) AUDIO_FIFO_CAP) rest

/-- The producer `systemOnWriteDataToSoundBuffer(finalWave, length)`, with
`length = finalWave.length`. -/
def systemOnWriteDataToSoundBuffer (s : AudioState) (finalWave : List Int) : AudioState :=
  let s := { s with audioSent := true }
  if s.turboMode then s
  else
    let wpos := Int.tmod (s.audioFifoHead + s.audioFifoLen) AUDIO_FIFO_CAP
    if s.audioFifoLen + (finalWave.length : Int) ≥ AUDIO_FIFO_CAP then s
    else
      let length := (finalWave.length / 2) * 2
      writeLoop s wpos (finalWave.take length)

/-- The `for` loop of `audioCallback` (lines 202-208): `n` iterations remain,
`wptr` is the index of the next 16-bit word of `stream` to be written. -/
def readLoop : Nat → Nat → AudioState → List Int → AudioState × List Int
  | 0, _, s, stream => (s, stream)
  | n + 1, wptr, s, stream =>
    let sample := s.audioFifo s.audioFifoHead
    readLoop n (wptr + 1)
      { s with audioFifoHead := Int.tmod (s.audioFifoHead + 1) AUDIO_FIFO_CAP,
               audioFifoLen := s.audioFifoLen - 1 }
      (stream.set wptr sample)

/-- The consumer `audioCallback(userdata, stream, len)`: `len` is the byte length
of `stream`; the result is the new state and the `len / 2` words of `stream`. -/
def audioCallback (s : AudioState) (len : Nat) : AudioState × List Int :=
  let stream := List.replicate (len / 2) (0 : Int)
  if s.turboMode then (s, stream)
  else
    let samples := len / 2
    if s.audioFifoLen < (samples : Int) then (s, stream)
    else readLoop samples 0 s stream

/-- The ring-buffer invariant of the data model: `0 ≤ length ≤ C` and
`0 ≤ head < C`. -/
def FifoInv (s : AudioState) : Prop :=
  0 ≤ s.audioFifoLen ∧ s.audioFifoLen ≤ AUDIO_FIFO_CAP ∧
    0 ≤ s.audioFifoHead ∧ s.audioFifoHead < AUDIO_FIFO_CAP

instance (s : AudioState) : Decidable (FifoInv s) := by
  unfold FifoInv; infer_instance

/-- The buffered samples, oldest first: storage read from `head` for `length`
positions, modulo `C`. -/
def contents (s : AudioState) : List Int :=
  (List.range s.audioFifoLen.toNat).map
    (fun (i : Nat) => s.audioFifo ((s.audioFifoHead + (i : Int)) % AUDIO_FIFO_CAP))

/-- The `n` oldest buffered samples: `storage[(head + i) mod C]` for `i < n`. -/
def oldest (s : AudioState) (n : Nat) : List Int :=
  (List.range n).map (fun (i : Nat) => s.audioFifo ((s.audioFifoHead + (i : Int)) % AUDIO_FIFO_CAP))

/-- The buffer after the samples 7 and 9 have been pushed into the empty buffer
at program start. -/
def twoSamples : AudioState :=
  systemOnWriteDataToSoundBuffer AudioState.init [7, 9]

/-- One call on the ring buffer, made under a given value of `turboMode`. -/
inductive AudioCall where
  /-- A call `systemOnWriteDataToSoundBuffer(finalWave, finalWave.length)`. -/
  | push (turbo : Bool) (finalWave : List Int)
  /-- A call `audioCallback(_, stream, len)`. -/
  | pop (turbo : Bool) (len : Nat)

/-- The state after one call; the main loop may have rewritten `turboMode`
before it. -/
def AudioCall.run (s : AudioState) : AudioCall → AudioState
  | .push turbo finalWave => systemOnWriteDataToSoundBuffer { s with turboMode := turbo } finalWave
  | .pop turbo len => (audioCallback { s with turboMode := turbo } len).1

/-- The state after a sequence of calls. -/
def runCalls (s : AudioState) (calls : List AudioCall) : AudioState :=
  calls.foldl AudioCall.run s

/-- The samples of `finalWave` that one push call adds to the buffer: as many
leading samples as the length grew by. -/
def acceptedBy (s : AudioState) (finalWave : List Int) : List Int :=
  finalWave.take
    ((systemOnWriteDataToSoundBuffer s finalWave).audioFifoLen - s.audioFifoLen).toNat

/-- The samples that one pop call removes from the buffer: as many leading words
of the stream as the length shrank by. -/
def removedBy (s : AudioState) (len : Nat) : List Int :=
  (audioCallback s len).2.take
    (s.audioFifoLen - (audioCallback s len).1.audioFifoLen).toNat

/-- The accepted and the removed samples of one call. -/
def AudioCall.log (s : AudioState) : AudioCall → List Int × List Int
  | .push turbo finalWave => (acceptedBy { s with turboMode := turbo } finalWave, [])
  | .pop turbo len => ([], removedBy { s with turboMode := turbo } len)

/-- A run of calls with its history: the final state, the concatenation of the
accepted batches and the concatenation of the removed samples, in call order. -/
def runLog : AudioState → List AudioCall → AudioState × List Int × List Int
  | s, [] => (s, [], [])
  | s, c :: cs =>
    let r := runLog (c.run s) cs
    (r.1, (c.log s).1 ++ r.2.1, (c.log s).2 ++ r.2.2)

/-! ## Autosave

`LIBRETRO_SAVE_BUF_LEN` and `libretro_save_buf` are declared in headers of the
emulation core; a save region is modelled as the list of its bytes, so that
`memcmp`, `memcpy` and `fwrite` over the whole region are comparison, copy and
write of the list. -/

/-- The bytes of a save region of `LIBRETRO_SAVE_BUF_LEN` bytes. -/
abbrev SaveBuf := List Nat

/-- The globals of the autosave path, the save file on disk with the room the
file system has for it, and a ghost counter of the calls of
`emuUpdateSaveFile`. -/
structure SaveState where
  /-- The gate `autoSaveEnabled` (initially `0`). -/
  autoSaveEnabled : Bool
  /-- The path `savFilePath`. -/
  savFilePath : String
  /-- The overlay text `osdText`. -/
  osdText : String
  /-- The overlay countdown `osdShowCount`. -/
  osdShowCount : Int
  /-- The snapshot `lastSaveBuf`. -/
  lastSaveBuf : SaveBuf
  /-- The flag `prevSaveChanged`, only ever tested for non-zero. -/
  prevSaveChanged : Bool
  /-- The live save region `libretro_save_buf` of the engine. -/
  libretro_save_buf : SaveBuf
  /-- The content of the file at `savFilePath`, `none` while it does not exist. -/
  savFile : Option SaveBuf
  /-- The file system: how many bytes of a write reach the file at
  `savFilePath` before `fwrite` or `fclose` fails (at least the size of the
  region when both succeed, 0 when nothing can be written). -/
  diskRoom : Nat
  /-- Ghost: how many times `emuUpdateSaveFile` has been entered. -/
  flushCalls : Nat

/-- The routine `emuShowOsd(cnt, fmt, ...)` for a format without conversions:
`vsnprintf` keeps at most 63 characters of the text. -/
def emuShowOsd (s : SaveState) (cnt : Int) (text : String) : SaveState :=
  { s with osdText := text.take 63, osdShowCount := cnt }

/-- The routine `emuUpdateSaveFile()`; `fopenOk` tells whether
`fopen(savFilePath, "wb")` succeeds.  Opening truncates the file; `fwrite` and
`fclose` then get the first `diskRoom` bytes of the region into it, and the
routine does not look at their results: it shows `Auto saved.` and returns 0
however many bytes were written.  Returns the new state and the C result. -/
def emuUpdateSaveFile (fopenOk : Bool) (s : SaveState) : SaveState × Int :=
  let s := { s with flushCalls := s.flushCalls + 1 }
  if s.savFilePath.length = 0 then (s, 0)
  else if !fopenOk then (emuShowOsd s 10 "Save failed!", -1)
  else
    let s := { s with savFile := some (s.libretro_save_buf.take s.diskRoom) }
    let s := emuShowOsd s 3 "Auto saved."
    ({ s with osdShowCount := 3 }, 0)

/-- The routine `emuCheckSave()`. -/
def emuCheckSave (fopenOk : Bool) (s : SaveState) : SaveState :=
  if !s.autoSaveEnabled then s
  else
    let changed : Bool := decide (s.lastSaveBuf ≠ s.libretro_save_buf)
    let s :=
      if changed then { s with lastSaveBuf := s.libretro_save_buf }
      else if s.prevSaveChanged then (emuUpdateSaveFile fopenOk s).1
      else s
    { s with prevSaveChanged := changed }

/-- The exit path of `main` (label `bed`, lines 373-374): one unconditional call
of `emuUpdateSaveFile`. -/
def mainExit (fopenOk : Bool) (s : SaveState) : SaveState :=
  (emuUpdateSaveFile fopenOk s).1

/-- One debounce period: what the engine does to the live save region before
the check (`some b`: rewrites it to `b`, `none`: leaves it unmodified) and
whether the save file can be opened during the check. -/
structure CheckStep where
  /-- The engine write preceding the check. -/
  write : Option SaveBuf
  /-- Whether `fopen` succeeds during the check. -/
  fopenOk : Bool

/-- The state at the moment the check starts. -/
def CheckStep.before (s : SaveState) (c : CheckStep) : SaveState :=
  match c.write with
  | none => s
  | some b => { s with libretro_save_buf := b }

/-- The state after the check. -/
def CheckStep.run (s : SaveState) (c : CheckStep) : SaveState :=
  emuCheckSave c.fopenOk (c.before s)

/-- The state after a run of checks. -/
def runChecks (s : SaveState) (cs : List CheckStep) : SaveState :=
  cs.foldl CheckStep.run s

/-- The number of flushes (calls of `emuUpdateSaveFile`) made during each check
of a run, in order. -/
def flushTrace : SaveState → List CheckStep → List Nat
  | _, [] => []
  | s, c :: cs => ((c.run s).flushCalls - s.flushCalls) :: flushTrace (c.run s) cs

/-- The live region differs from the snapshot at the start of every check of the
run. -/
def DiffersAtEvery : SaveState → List CheckStep → Prop
  | _, [] => True
  | s, c :: cs =>
    (c.before s).libretro_save_buf ≠ (c.before s).lastSaveBuf ∧ DiffersAtEvery (c.run s) cs

/-- The engine leaves the live region unmodified throughout the run. -/
def Unmodified (cs : List CheckStep) : Prop :=
  ∀ c ∈ cs, c.write = none

instance decDiffersAtEvery : (s : SaveState) → (cs : List CheckStep) →
    Decidable (DiffersAtEvery s cs)
  | _, [] => isTrue trivial
  | s, c :: cs =>
    have := decDiffersAtEvery (c.run s) cs
    inferInstanceAs (Decidable
      ((c.before s).libretro_save_buf ≠ (c.before s).lastSaveBuf ∧ DiffersAtEvery (c.run s) cs))

instance (cs : List CheckStep) : Decidable (Unmodified cs) := by
  unfold Unmodified; infer_instance

/-- The state right after `emuLoadROM` found no save file for a ROM with a
one-byte save region: region and snapshot zeroed, `prevSaveChanged = 0`,
`autoSaveEnabled` still at its initial value 0; the disk has room for the
region. -/
def loadedState : SaveState :=
  { autoSaveEnabled := false
    savFilePath := "rom.gba.4gs"
    osdText := ""
    osdShowCount := 0
    lastSaveBuf := [0]
    prevSaveChanged := false
    libretro_save_buf := [0]
    savFile := none
    diskRoom := 65536
    flushCalls := 0 }

/-- The state at exit when the engine has rewritten the live save region since
the ROM was loaded and no check has copied it: the user quits. -/
def dirtyAtExit : SaveState :=
  { loadedState with libretro_save_buf := [1] }

/-- As `dirtyAtExit`, with a save file that can be opened but not written (a
full disk). -/
def dirtyAtExitDiskFull : SaveState :=
  { dirtyAtExit with diskRoom := 0 }

/-! ## Input state

The SDL key codes are constants of `SDL_keycode.h`; they are given the values
they have in SDL2.  The joystick is seen through the snapshot that
`SDL_JoystickGetButton` and `SDL_JoystickGetAxis` read at the frame boundary. -/

/-- The table `volatile int emuKeyState[12][2]`: `st i 0` is the keyboard
assertion of logical button `i`, `st i 1` its device assertion. -/
abbrev KeyState := Nat → Nat → Int

/-- The assignment `emuKeyState[i][c] = v`. -/
def setKeyState (st : KeyState) (i c : Nat) (v : Int) : KeyState :=
  fun a b => if a = i ∧ b = c then v else st a b

/-- The key code `SDLK_x`. -/
def SDLK_x : Int := 120
/-- The key code `SDLK_z`. -/
def SDLK_z : Int := 122
/-- The key code `SDLK_SPACE`. -/
def SDLK_SPACE : Int := 32
/-- The key code `SDLK_RETURN`. -/
def SDLK_RETURN : Int := 13
/-- The key code `SDLK_RIGHT`. -/
def SDLK_RIGHT : Int := 1073741903
/-- The key code `SDLK_LEFT`. -/
def SDLK_LEFT : Int := 1073741904
/-- The key code `SDLK_UP`. -/
def SDLK_UP : Int := 1073741906
/-- The key code `SDLK_DOWN`. -/
def SDLK_DOWN : Int := 1073741905
/-- The key code `SDLK_s`. -/
def SDLK_s : Int := 115
/-- The key code `SDLK_a`. -/
def SDLK_a : Int := 97
/-- The key code `SDLK_TAB`. -/
def SDLK_TAB : Int := 9
/-- The key code `SDLK_ESCAPE`. -/
def SDLK_ESCAPE : Int := 27

/-- The table `emuKeyboardMap[12]`: a, b, select, start, right, left, up, down,
r, l, turbo, menu. -/
def emuKeyboardMap : List Int :=
  [SDLK_x, SDLK_z, SDLK_SPACE, SDLK_RETURN, SDLK_RIGHT, SDLK_LEFT, SDLK_UP, SDLK_DOWN,
   SDLK_s, SDLK_a, SDLK_TAB, SDLK_ESCAPE]

/-- The table `emuJoystickMap[12]`. -/
def emuJoystickMap : List Int := [0, 1, 11, 10, 14, 12, 13, 15, 7, 6, 9, 5]

/-- The threshold `emuJoystickDeadzone`. -/
def emuJoystickDeadzone : Int := 10000

/-- The `for` loop of `emuHandleKey` from index `i` on, over the entries
`keymap[i ..]` that remain to be compared. -/
def emuHandleKeyLoop (key down : Int) (st : KeyState) : Nat → List Int → KeyState
  | _, [] => st
  | i, k :: rest =>
    if k = key then setKeyState st i 0 down
    else emuHandleKeyLoop key down st (i + 1) rest

/-- The routine `emuHandleKey(key, down)`. -/
def emuHandleKey (st : KeyState) (key down : Int) : KeyState :=
  emuHandleKeyLoop key down st 0 emuKeyboardMap

/-- The keyboard events of the main loop (lines 337-344): `SDL_KEYDOWN` calls
`emuHandleKey(keyCode, 1)`, `SDL_KEYUP` calls `emuHandleKey(keyCode, 0)`. -/
def handleKeyEvent (st : KeyState) (code : Int) (isDown : Bool) : KeyState :=
  emuHandleKey st code (if isDown then 1 else 0)

/-- What the joystick reports at a frame boundary: the level of each button
(`SDL_JoystickGetButton`, a `Uint8`) and the two axes (`SDL_JoystickGetAxis`). -/
structure JoystickSnapshot where
  /-- The level of the button with a given index. -/
  button : Int → Nat
  /-- The value of axis 0. -/
  xaxis : Int
  /-- The value of axis 1. -/
  yaxis : Int

/-- The `for` loop of the joystick poll (lines 349-355) from index `i` on, over
the entries `emuJoystickMap[i ..]`. -/
def pollButtonsLoop (snap : JoystickSnapshot) : KeyState → Nat → List Int → KeyState
  | st, _, [] => st
  | st, i, b :: rest =>
    if b = -1 then pollButtonsLoop snap st (i + 1) rest
    else pollButtonsLoop snap (setKeyState st i 1 (snap.button b)) (i + 1) rest

/-- The value of a C comparison: 1 when it holds, 0 otherwise. -/
def cBool (p : Prop) [Decidable p] : Int := if p then 1 else 0

/-- The axis part of the joystick poll (lines 356-361): the four `|=`
assignments. -/
def pollAxes (snap : JoystickSnapshot) (st : KeyState) : KeyState :=
  let st := setKeyState st 4 1 (Int.lor (st 4 1) (cBool (snap.xaxis > emuJoystickDeadzone)))
  let st := setKeyState st 5 1 (Int.lor (st 5 1) (cBool (snap.xaxis < -emuJoystickDeadzone)))
  let st := setKeyState st 6 1 (Int.lor (st 6 1) (cBool (snap.yaxis < -emuJoystickDeadzone)))
  setKeyState st 7 1 (Int.lor (st 7 1) (cBool (snap.yaxis > emuJoystickDeadzone)))

/-- The joystick poll of the main loop (lines 349-361), for a joystick that is
present. -/
def pollJoystick (snap : JoystickSnapshot) (st : KeyState) : KeyState :=
  pollAxes snap (pollButtonsLoop snap st 0 emuJoystickMap)

/-- The loop that builds the input latch `joy` (lines 363-368). -/
def buildJoy (st : KeyState) : Nat :=
  (List.range 10).foldl
    (fun (joy : Nat) (i : Nat) => if st i 0 ≠ 0 ∨ st i 1 ≠ 0 then joy ||| (1 <<< i) else joy) 0

/-- The input section of the main loop at a frame boundary (lines 346-369),
after the events have been handled: the new table, the latch `joy` and the new
`turboMode`.  `joystick` is `none` when `SDL_JoystickOpen` failed. -/
def frameInput (joystick : Option JoystickSnapshot) (st : KeyState) : KeyState × Nat × Bool :=
  let st := match joystick with
    | none => st
    | some snap => pollJoystick snap st
  (st, buildJoy st, decide (st 10 0 ≠ 0) || decide (st 10 1 ≠ 0))

/-- The table with every assertion clear. -/
def allReleased : KeyState := fun _ _ => 0

/-- A joystick snapshot with button 14 (mapped to Right) pressed, the x axis
exactly at the deadzone and the y axis pushed up beyond it. -/
def rightAndUp : JoystickSnapshot :=
  { button := fun b => if b = 14 then 1 else 0, xaxis := 10000, yaxis := -10001 }

/-- A joystick snapshot with every button released and both axes at rest. -/
def atRest : JoystickSnapshot :=
  { button := fun _ => 0, xaxis := 0, yaxis := 0 }

/-! ## Frame pacer -/

/-- One call of `CPULoop` as the audio path sees it: the chunks for which the
engine calls `systemOnWriteDataToSoundBuffer` during the call, in order. -/
abbrev EngineStep := List (List Int)

/-- The effect of one call of `CPULoop` on the audio globals. -/
def cpuLoopAudio (s : AudioState) (step : EngineStep) : AudioState :=
  step.foldl systemOnWriteDataToSoundBuffer s

/-- The `while (!audioSent)` loop of `emuRunAudio` over the calls of `CPULoop`
still to come; `none` when they run out before the loop exits. -/
def emuRunAudioLoop : AudioState → List EngineStep → Option (AudioState × List EngineStep)
  | s, [] => if s.audioSent then some (s, []) else none
  | s, step :: rest =>
    if s.audioSent then some (s, step :: rest)
    else emuRunAudioLoop (cpuLoopAudio s step) rest

/-- The routine `emuRunAudio()`: the state on return and the calls of `CPULoop`
not consumed. -/
def emuRunAudio (s : AudioState) (steps : List EngineStep) :
    Option (AudioState × List EngineStep) :=
  emuRunAudioLoop { s with audioSent := false } steps

/-- The globals of `systemDrawScreen`: the audio and save globals and the frame
bookkeeping.  `frameCount` and `lastTime` are `uint32_t`. -/
structure Emu where
  /-- The audio globals, with `turboMode`. -/
  audio : AudioState
  /-- The save globals, with `osdText` and `osdShowCount`. -/
  save : SaveState
  /-- The flag `showAudioDebug`. -/
  showAudioDebug : Bool
  /-- The flag `frameDrawn`. -/
  frameDrawn : Bool
  /-- The counter `frameCount`. -/
  frameCount : Nat
  /-- The value `emuFPS`. -/
  emuFPS : Int
  /-- The tick value `lastTime`. -/
  lastTime : Int

/-- The text that `systemDrawScreen` draws in the dimmed box at the top of the
frame: the format of the `snprintf` call with its arguments. -/
inductive Overlay where
  /-- The message `osdText`. -/
  | message (text : String)
  /-- The text `"FPS: %d, fifo: %d"` of `emuFPS` and `audioFifoLen`. -/
  | fpsAndFifo (fps : Int) (fifoLen : Int)
  /-- The text `"FPS: %d"` of `emuFPS`. -/
  | fpsOnly (fps : Int)
  deriving DecidableEq, Repr

/-- What one call of `systemDrawScreen` does to the display. -/
inductive Frame where
  /-- The routine returned before drawing: nothing is presented. -/
  | skipped
  /-- The routine reached `emuUpdateFB`; `overlay` is what was drawn in the
  dimmed box before, `none` when no box is drawn. -/
  | presented (overlay : Option Overlay)
  deriving DecidableEq, Repr

/-- The overlay part of `systemDrawScreen` (lines 147-163). -/
def drawOverlay (s : Emu) : Option Overlay :=
  if s.save.osdShowCount > 0 then some (Overlay.message s.save.osdText)
  else if s.showAudioDebug then some (Overlay.fpsAndFifo s.emuFPS s.audio.audioFifoLen)
  else if s.audio.turboMode then some (Overlay.fpsOnly s.emuFPS)
  else none

/-- The FPS part of `systemDrawScreen` (lines 124-133), entered when the frame
count is a multiple of 120; `currentTime` is the value of `SDL_GetTicks()`.
The subtraction is a `uint32_t` subtraction. -/
def updateFPS (currentTime : Int) (s : Emu) : Emu :=
  let delta : Int := (currentTime - s.lastTime) % 4294967296
  let delta : Int := if delta ≤ 0 then 1 else delta
  { s with emuFPS := 120 * 1000 / delta, lastTime := currentTime }

/-- Lines 122-123 of `systemDrawScreen`: `frameDrawn = 1; frameCount++`. -/
def countFrame (s : Emu) : Emu :=
  { s with frameDrawn := true, frameCount := (s.frameCount + 1) % 4294967296 }

/-- Lines 124-133 of `systemDrawScreen`: the FPS recomputation every 120
frames. -/
def fpsStep (currentTime : Int) (s : Emu) : Emu :=
  if s.frameCount % 120 = 0 then updateFPS currentTime s else s

/-- Lines 134-141 of `systemDrawScreen`: every 60 frames, outside accelerated
mode, the autosave check and the countdown step. -/
def autosaveStep (fopenOk : Bool) (s : Emu) : Emu :=
  if s.frameCount % 60 = 0 then
    if !s.audio.turboMode then
      let s := { s with save := emuCheckSave fopenOk s.save }
      if s.save.osdShowCount > 0 then
        { s with save := { s.save with osdShowCount := s.save.osdShowCount - 1 } }
      else s
    else s
  else s

/-- Lines 142-164 of `systemDrawScreen`: the early return in accelerated mode,
else the overlay and `emuUpdateFB`. -/
def presentStep (s : Emu) : Frame :=
  if s.audio.turboMode then
    if s.frameCount % 20 ≠ 0 then Frame.skipped
    else Frame.presented (drawOverlay s)
  else Frame.presented (drawOverlay s)

/-- The routine `systemDrawScreen()`; `currentTime` is what `SDL_GetTicks()`
returns if it is called, `fopenOk` whether the save file opens if a flush is
made.  The result is the new state and what happened on the display. -/
def systemDrawScreen (currentTime : Int) (fopenOk : Bool) (s : Emu) : Emu × Frame :=
  let s := autosaveStep fopenOk (fpsStep currentTime (countFrame s))
  (s, presentStep s)

/-- The state after 119 frames of normal play from `loadedState`, the last FPS
sample taken at tick 1000, the debug overlay on. -/
def pacedState : Emu :=
  { audio := AudioState.init
    save := loadedState
    showAudioDebug := true
    frameDrawn := false
    frameCount := 119
    emuFPS := 0
    lastTime := 1000 }

/-- As `pacedState`, the last FPS sample taken at the last tick before the
32-bit tick counter wraps. -/
def beforeTickWrap : Emu :=
  { pacedState with lastTime := 4294967295 }

/-- The save state in which a changed check has just copied the region `[5]`
into the snapshot, with autosave enabled: the next unmodified check flushes. -/
def settlingState : SaveState :=
  { loadedState with autoSaveEnabled := true, lastSaveBuf := [5],
                     libretro_save_buf := [5], prevSaveChanged := true }

/-! ## Lemmas on the two loops of the ring buffer -/

theorem cap_eq : AUDIO_FIFO_CAP = 8192 := rfl

theorem tmod_cap {a : Int} (h : 0 ≤ a) : Int.tmod a AUDIO_FIFO_CAP = a % 8192 := by
  rw [cap_eq]; exact Int.tmod_eq_emod h (by decide)

/-- The write loop touches neither the head index nor the two flags. -/
theorem writeLoop_frame (xs : List Int) : ∀ (s : AudioState) (wpos : Int),
    (writeLoop s wpos xs).audioFifoHead = s.audioFifoHead ∧
    (writeLoop s wpos xs).turboMode = s.turboMode ∧
    (writeLoop s wpos xs).audioSent = s.audioSent := by
  induction xs with
  | nil => intro s wpos; simp [writeLoop]
  | cons x rest ih =>
    intro s wpos
    simp only [writeLoop]
    split
    · simp
    · simpa using ih _ _

/-- When the batch fits, the write loop stores every sample: the length grows by
the number of samples. -/
theorem writeLoop_len (xs : List Int) : ∀ (s : AudioState) (wpos : Int),
    s.audioFifoLen + (xs.length : Int) ≤ AUDIO_FIFO_CAP →
    (writeLoop s wpos xs).audioFifoLen = s.audioFifoLen + (xs.length : Int) := by
  induction xs with
  | nil => intro s wpos _; simp [writeLoop]
  | cons x rest ih =>
    intro s wpos h
    rw [cap_eq] at h
    simp only [List.length_cons, Nat.cast_add, Nat.cast_one] at h ⊢
    have hlt : ¬ s.audioFifoLen ≥ AUDIO_FIFO_CAP := by rw [cap_eq]; omega
    simp only [writeLoop, if_neg hlt]
    rw [ih]
    · simp only []; omega
    · rw [cap_eq]; simp only []; omega

/-- A cell that is none of the positions written keeps its value. -/
theorem writeLoop_fifo_other (xs : List Int) : ∀ (s : AudioState) (wpos : Int) (j : Int),
    0 ≤ wpos → wpos < AUDIO_FIFO_CAP →
    (∀ i : Nat, i < xs.length → j ≠ (wpos + (i : Int)) % AUDIO_FIFO_CAP) →
    (writeLoop s wpos xs).audioFifo j = s.audioFifo j := by
  induction xs with
  | nil => intro s wpos j _ _ _; simp [writeLoop]
  | cons x rest ih =>
    intro s wpos j h0 h1 hj
    simp only [writeLoop]
    split
    · rfl
    · rw [cap_eq] at h1
      have hj0 : j ≠ wpos := by
        have := hj 0 (by simp)
        rw [cap_eq] at this
        simp only [Nat.cast_zero, add_zero] at this
        rwa [Int.emod_eq_of_lt h0 h1] at this
      rw [ih]
      · simp [Function.update_noteq hj0]
      · rw [tmod_cap (by omega)]; omega
      · rw [tmod_cap (by omega), cap_eq]; omega
      · intro i hi
        have := hj (i + 1) (by simp; omega)
        rw [tmod_cap (by omega)]
        rw [cap_eq] at this ⊢
        simp only [Nat.cast_add, Nat.cast_one] at this
        omega

/-- When the batch fits, sample `i` of the batch is stored at position
`(wpos + i) mod C`. -/
theorem writeLoop_fifo_written (xs : List Int) : ∀ (s : AudioState) (wpos : Int),
    0 ≤ wpos → wpos < AUDIO_FIFO_CAP →
    s.audioFifoLen + (xs.length : Int) ≤ AUDIO_FIFO_CAP → 0 ≤ s.audioFifoLen →
    ∀ (i : Nat) (hi : i < xs.length),
      (writeLoop s wpos xs).audioFifo ((wpos + (i : Int)) % AUDIO_FIFO_CAP) = xs.get ⟨i, hi⟩ := by
  induction xs with
  | nil => intro s wpos _ _ _ _ i hi; simp at hi
  | cons x rest ih =>
    intro s wpos h0 h1 hfit hlen i hi
    rw [cap_eq] at h1 hfit
    simp only [List.length_cons, Nat.cast_add, Nat.cast_one] at hfit
    have hlt : ¬ s.audioFifoLen ≥ AUDIO_FIFO_CAP := by rw [cap_eq]; omega
    simp only [writeLoop, if_neg hlt]
    have hw0 : 0 ≤ Int.tmod (wpos + 1) AUDIO_FIFO_CAP := by rw [tmod_cap (by omega)]; omega
    have hw1 : Int.tmod (wpos + 1) AUDIO_FIFO_CAP < AUDIO_FIFO_CAP := by
      rw [tmod_cap (by omega), cap_eq]; omega
    cases i with
    | zero =>
      rw [writeLoop_fifo_other rest _ _ _ hw0 hw1]
      · have e0 : (wpos + ((0 : Nat) : Int)) % AUDIO_FIFO_CAP = wpos := by
          rw [cap_eq]; simp only [Nat.cast_zero, add_zero]; exact Int.emod_eq_of_lt h0 h1
        rw [e0]; simp
      · intro k hk
        rw [tmod_cap (by omega), cap_eq]
        simp only [Nat.cast_zero, add_zero]
        omega
    | succ k =>
      have hk : k < rest.length := by simpa using hi
      have := ih { s with audioFifo := Function.update s.audioFifo wpos x,
                          audioFifoLen := s.audioFifoLen + 1 }
        (Int.tmod (wpos + 1) AUDIO_FIFO_CAP) hw0 hw1
        (by rw [cap_eq]; simp only []; omega) (by simp only []; omega) k hk
      have e : (wpos + ((k + 1 : Nat) : Int)) % AUDIO_FIFO_CAP
          = (Int.tmod (wpos + 1) AUDIO_FIFO_CAP + (k : Int)) % AUDIO_FIFO_CAP := by
        rw [tmod_cap (by omega), cap_eq]; push_cast; omega
      rw [e, this]
      simp

/-- When the batch fits, the write loop appends it to the buffered samples. -/
theorem writeLoop_contents (xs : List Int) (s : AudioState) (hinv : FifoInv s)
    (hfit : s.audioFifoLen + (xs.length : Int) ≤ AUDIO_FIFO_CAP) :
    contents (writeLoop s (Int.tmod (s.audioFifoHead + s.audioFifoLen) AUDIO_FIFO_CAP) xs)
      = contents s ++ xs := by
  obtain ⟨hl0, hl1, hh0, hh1⟩ := hinv
  have hw : Int.tmod (s.audioFifoHead + s.audioFifoLen) AUDIO_FIFO_CAP
      = (s.audioFifoHead + s.audioFifoLen) % 8192 := tmod_cap (by omega)
  have hw0 : 0 ≤ Int.tmod (s.audioFifoHead + s.audioFifoLen) AUDIO_FIFO_CAP := by
    rw [hw]; omega
  have hw1 : Int.tmod (s.audioFifoHead + s.audioFifoLen) AUDIO_FIFO_CAP < AUDIO_FIFO_CAP := by
    rw [hw, cap_eq]; omega
  unfold contents
  rw [writeLoop_len xs s _ hfit, (writeLoop_frame xs s _).1]
  have hn : (s.audioFifoLen + (xs.length : Int)).toNat = s.audioFifoLen.toNat + xs.length := by
    omega
  rw [hn, List.range_add, List.map_append, List.map_map]
  rw [cap_eq] at hl1 hh1 hfit
  congr 1
  · apply List.map_congr_left
    intro i hi
    have hi2 : i < s.audioFifoLen.toNat := List.mem_range.mp hi
    apply writeLoop_fifo_other xs s _ _ hw0 hw1
    intro k hk
    rw [hw, cap_eq]
    omega
  · apply List.ext_getElem
    · simp
    · intro i h1 h2
      simp only [List.getElem_map, List.getElem_range, Function.comp_apply]
      have hi : i < xs.length := h2
      have e : (s.audioFifoHead + ((s.audioFifoLen.toNat + i : Nat) : Int)) % AUDIO_FIFO_CAP
          = (Int.tmod (s.audioFifoHead + s.audioFifoLen) AUDIO_FIFO_CAP + (i : Int))
              % AUDIO_FIFO_CAP := by
        rw [hw, cap_eq]; push_cast; omega
      rw [e, writeLoop_fifo_written xs s _ hw0 hw1 (by rw [cap_eq]; omega) hl0 i hi]
      rfl

theorem oldest_succ (s : AudioState) (n : Nat) (h0 : 0 ≤ s.audioFifoHead)
    (h1 : s.audioFifoHead < AUDIO_FIFO_CAP) :
    oldest s (n + 1) = s.audioFifo s.audioFifoHead ::
      oldest { s with audioFifoHead := Int.tmod (s.audioFifoHead + 1) AUDIO_FIFO_CAP,
                      audioFifoLen := s.audioFifoLen - 1 } n := by
  rw [cap_eq] at h1
  unfold oldest
  rw [List.range_succ_eq_map, List.map_cons, List.map_map]
  congr 1
  · simp only [Nat.cast_zero, add_zero, cap_eq]
    rw [Int.emod_eq_of_lt h0 h1]
  · apply List.map_congr_left
    intro i _
    simp only [Function.comp_apply]
    congr 1
    rw [tmod_cap (by omega), cap_eq]
    push_cast
    omega

/-- The read loop leaves the storage and the flags alone, advances the head by
`n` modulo `C`, takes `n` off the length, and overwrites the `n` words of the
stream from `wptr` on with the `n` oldest samples. -/
theorem readLoop_spec (n : Nat) : ∀ (s : AudioState) (pre mid : List Int),
    0 ≤ s.audioFifoHead → s.audioFifoHead < AUDIO_FIFO_CAP → mid.length = n →
    (readLoop n pre.length s (pre ++ mid)).2 = pre ++ oldest s n ∧
    (readLoop n pre.length s (pre ++ mid)).1.audioFifo = s.audioFifo ∧
    (readLoop n pre.length s (pre ++ mid)).1.audioFifoHead
      = (s.audioFifoHead + (n : Int)) % AUDIO_FIFO_CAP ∧
    (readLoop n pre.length s (pre ++ mid)).1.audioFifoLen = s.audioFifoLen - (n : Int) ∧
    (readLoop n pre.length s (pre ++ mid)).1.turboMode = s.turboMode ∧
    (readLoop n pre.length s (pre ++ mid)).1.audioSent = s.audioSent := by
  induction n with
  | zero =>
    intro s pre mid h0 h1 hm
    have : mid = [] := List.length_eq_zero.mp hm
    subst this
    rw [cap_eq] at h1 ⊢
    simp [readLoop, oldest, Int.emod_eq_of_lt h0 h1]
  | succ n ih =>
    intro s pre mid h0 h1 hm
    cases mid with
    | nil => simp at hm
    | cons m mid =>
      have hm2 : mid.length = n := by simpa using hm
      have hset : (pre ++ m :: mid).set pre.length (s.audioFifo s.audioFifoHead)
          = (pre ++ [s.audioFifo s.audioFifoHead]) ++ mid := by
        simp [List.set_append]
      have hlen : pre.length + 1 = (pre ++ [s.audioFifo s.audioFifoHead]).length := by simp
      simp only [readLoop]
      rw [hset, hlen]
      have h1c := h1
      rw [cap_eq] at h1c
      have := ih { s with audioFifoHead := Int.tmod (s.audioFifoHead + 1) AUDIO_FIFO_CAP,
                          audioFifoLen := s.audioFifoLen - 1 }
        (pre ++ [s.audioFifo s.audioFifoHead]) mid
        (by simp only []; rw [tmod_cap (by omega)]; omega)
        (by simp only []; rw [tmod_cap (by omega), cap_eq]; omega) hm2
      obtain ⟨a, b, c, d, e, f⟩ := this
      refine ⟨?_, ?_, ?_, ?_, ?_, ?_⟩
      · rw [a, oldest_succ s n h0 h1]; simp
      · rw [b]
      · rw [c]; simp only []; rw [tmod_cap (by omega), cap_eq]; push_cast; omega
      · rw [d]; simp only []; push_cast; omega
      · rw [e]
      · rw [f]

/-! ## Lemmas on push and pop -/

/-- A push in accelerated mode, or of a batch with `length + count ≥ C`, only
sets `audioSent`. -/
theorem push_rejected (s : AudioState) (finalWave : List Int)
    (h : s.turboMode = true ∨ s.audioFifoLen + (finalWave.length : Int) ≥ AUDIO_FIFO_CAP) :
    systemOnWriteDataToSoundBuffer s finalWave = { s with audioSent := true } := by
  unfold systemOnWriteDataToSoundBuffer
  rcases h with h | h
  · simp [h]
  · simp only [if_pos h]
    split <;> rfl

/-- A push with accelerated mode off and `length + count < C` runs the write
loop over the batch truncated to an even number of samples. -/
theorem push_accepted (s : AudioState) (finalWave : List Int)
    (ht : s.turboMode = false)
    (h : s.audioFifoLen + (finalWave.length : Int) < AUDIO_FIFO_CAP) :
    systemOnWriteDataToSoundBuffer s finalWave
      = writeLoop { s with audioSent := true }
          (Int.tmod (s.audioFifoHead + s.audioFifoLen) AUDIO_FIFO_CAP)
          (finalWave.take ((finalWave.length / 2) * 2)) := by
  unfold systemOnWriteDataToSoundBuffer
  have h2 : ¬ s.audioFifoLen + (finalWave.length : Int) ≥ AUDIO_FIFO_CAP := by omega
  simp [ht, h2]

theorem take_even_length (finalWave : List Int) :
    (finalWave.take ((finalWave.length / 2) * 2)).length = (finalWave.length / 2) * 2 := by
  rw [List.length_take]; omega

/-- The effect of an accepted push on length, head and buffered samples. -/
theorem push_accepted_spec (s : AudioState) (finalWave : List Int) (hinv : FifoInv s)
    (ht : s.turboMode = false)
    (h : s.audioFifoLen + (finalWave.length : Int) < AUDIO_FIFO_CAP) :
    (systemOnWriteDataToSoundBuffer s finalWave).audioFifoLen
      = s.audioFifoLen + (((finalWave.length / 2) * 2 : Nat) : Int) ∧
    (systemOnWriteDataToSoundBuffer s finalWave).audioFifoHead = s.audioFifoHead ∧
    contents (systemOnWriteDataToSoundBuffer s finalWave)
      = contents s ++ finalWave.take ((finalWave.length / 2) * 2) := by
  rw [push_accepted s finalWave ht h]
  have hfit : ({ s with audioSent := true } : AudioState).audioFifoLen
      + ((finalWave.take ((finalWave.length / 2) * 2)).length : Int) ≤ AUDIO_FIFO_CAP := by
    rw [take_even_length]; simp only []; push_cast; omega
  refine ⟨?_, ?_, ?_⟩
  · rw [writeLoop_len _ _ _ hfit, take_even_length]
  · rw [(writeLoop_frame _ _ _).1]
  · have := writeLoop_contents (finalWave.take ((finalWave.length / 2) * 2))
      { s with audioSent := true } hinv hfit
    rw [this]
    rfl

/-- A pop in accelerated mode, or of more samples than are buffered, leaves the
state alone and delivers silence. -/
theorem pop_silent (s : AudioState) (len : Nat)
    (h : s.turboMode = true ∨ s.audioFifoLen < ((len / 2 : Nat) : Int)) :
    audioCallback s len = (s, List.replicate (len / 2) 0) := by
  unfold audioCallback
  rcases h with h | h
  · simp [h]
  · simp only [if_pos h]
    split <;> rfl

/-- A pop with accelerated mode off and enough buffered samples runs the read
loop over the zeroed stream. -/
theorem pop_served (s : AudioState) (len : Nat) (ht : s.turboMode = false)
    (h : ((len / 2 : Nat) : Int) ≤ s.audioFifoLen) :
    audioCallback s len = readLoop (len / 2) 0 s (List.replicate (len / 2) 0) := by
  unfold audioCallback
  have h2 : ¬ s.audioFifoLen < ((len / 2 : Nat) : Int) := by omega
  simp only [ht, Bool.false_eq_true, if_false, if_neg h2]

/-- The effect of a served pop. -/
theorem pop_served_spec (s : AudioState) (len : Nat) (hinv : FifoInv s)
    (ht : s.turboMode = false) (h : ((len / 2 : Nat) : Int) ≤ s.audioFifoLen) :
    (audioCallback s len).2 = oldest s (len / 2) ∧
    (audioCallback s len).1.audioFifo = s.audioFifo ∧
    (audioCallback s len).1.audioFifoHead
      = (s.audioFifoHead + ((len / 2 : Nat) : Int)) % AUDIO_FIFO_CAP ∧
    (audioCallback s len).1.audioFifoLen = s.audioFifoLen - ((len / 2 : Nat) : Int) ∧
    (audioCallback s len).1.turboMode = s.turboMode ∧
    (audioCallback s len).1.audioSent = s.audioSent := by
  rw [pop_served s len ht h]
  have := readLoop_spec (len / 2) s [] (List.replicate (len / 2) 0) hinv.2.2.1 hinv.2.2.2
    (by simp)
  simpa using this

/-- The buffered samples split into the `n` oldest and the rest. -/
theorem contents_split (s t : AudioState) (n : Nat) (hinv : FifoInv s)
    (hn : (n : Int) ≤ s.audioFifoLen) (hf : t.audioFifo = s.audioFifo)
    (hh : t.audioFifoHead = (s.audioFifoHead + (n : Int)) % AUDIO_FIFO_CAP)
    (hl : t.audioFifoLen = s.audioFifoLen - (n : Int)) :
    contents s = oldest s n ++ contents t := by
  obtain ⟨hl0, hl1, hh0, hh1⟩ := hinv
  unfold contents oldest
  have e : s.audioFifoLen.toNat = n + t.audioFifoLen.toNat := by omega
  rw [e, List.range_add, List.map_append, List.map_map, hf, hh]
  congr 1
  apply List.map_congr_left
  intro i _
  simp only [Function.comp_apply]
  congr 1
  rw [cap_eq]
  push_cast
  omega

/-- Every call preserves the ring-buffer invariant. -/
theorem run_preserves_inv (s : AudioState) (c : AudioCall) (hinv : FifoInv s) :
    FifoInv (c.run s) := by
  obtain ⟨hl0, hl1, hh0, hh1⟩ := hinv
  cases c with
  | push turbo finalWave =>
    simp only [AudioCall.run]
    by_cases hacc : turbo = false ∧ s.audioFifoLen + (finalWave.length : Int) < AUDIO_FIFO_CAP
    · have hinv2 : FifoInv { s with turboMode := turbo } := ⟨hl0, hl1, hh0, hh1⟩
      obtain ⟨a, b, _⟩ := push_accepted_spec { s with turboMode := turbo } finalWave hinv2
        hacc.1 hacc.2
      have h2 := hacc.2
      rw [cap_eq] at h2
      refine ⟨?_, ?_, ?_, ?_⟩
      · rw [a]; simp only []; omega
      · rw [a, cap_eq]; simp only []; push_cast; omega
      · rw [b]; exact hh0
      · rw [b]; exact hh1
    · rw [push_rejected]
      · exact ⟨hl0, hl1, hh0, hh1⟩
      · simp only []
        by_cases ht : turbo = true
        · exact Or.inl ht
        · right
          have hf : turbo = false := by simpa using ht
          exact not_lt.mp (fun h => hacc ⟨hf, h⟩)
  | pop turbo len =>
    simp only [AudioCall.run]
    by_cases hacc : turbo = false ∧ ((len / 2 : Nat) : Int) ≤ s.audioFifoLen
    · have hinv2 : FifoInv { s with turboMode := turbo } := ⟨hl0, hl1, hh0, hh1⟩
      obtain ⟨_, _, c, d, _, _⟩ := pop_served_spec { s with turboMode := turbo } len hinv2
        hacc.1 hacc.2
      have h2 := hacc.2
      rw [cap_eq] at hl1 hh1
      refine ⟨?_, ?_, ?_, ?_⟩
      · rw [d]; simp only [] at h2 ⊢; omega
      · rw [d, cap_eq]; simp only [] at h2 ⊢; omega
      · rw [c, cap_eq]; simp only []; omega
      · rw [c, cap_eq]; simp only []; omega
    · rw [pop_silent]
      · exact ⟨hl0, hl1, hh0, hh1⟩
      · simp only []
        by_cases ht : turbo = true
        · exact Or.inl ht
        · right
          have hf : turbo = false := by simpa using ht
          exact lt_of_not_le (fun h => hacc ⟨hf, h⟩)

theorem runCalls_preserves_inv (calls : List AudioCall) : ∀ (s : AudioState),
    FifoInv s → FifoInv (runCalls s calls) := by
  induction calls with
  | nil => intro s h; exact h
  | cons c cs ih =>
    intro s h
    simp only [runCalls, List.foldl_cons]
    exact ih _ (run_preserves_inv s c h)

/-- One call keeps the history equation: what was buffered plus what the call
accepts is what the call removes plus what is buffered afterwards. -/
theorem log_step (s : AudioState) (c : AudioCall) (hinv : FifoInv s) :
    contents s ++ (c.log s).1 = (c.log s).2 ++ contents (c.run s) := by
  cases c with
  | push turbo finalWave =>
    simp only [AudioCall.log, AudioCall.run, acceptedBy, List.nil_append]
    have hinv2 : FifoInv { s with turboMode := turbo } := hinv
    have hc : contents ({ s with turboMode := turbo } : AudioState) = contents s := rfl
    by_cases hacc : turbo = false ∧ s.audioFifoLen + (finalWave.length : Int) < AUDIO_FIFO_CAP
    · obtain ⟨a, _, c⟩ := push_accepted_spec { s with turboMode := turbo } finalWave hinv2
        hacc.1 hacc.2
      rw [c, a, hc]
      congr 2
      simp only []
      omega
    · have hrej : ({ s with turboMode := turbo } : AudioState).turboMode = true ∨
          ({ s with turboMode := turbo } : AudioState).audioFifoLen + (finalWave.length : Int)
            ≥ AUDIO_FIFO_CAP := by
        simp only []
        by_cases ht : turbo = true
        · exact Or.inl ht
        · right
          have hf : turbo = false := by simpa using ht
          exact not_lt.mp (fun h => hacc ⟨hf, h⟩)
      rw [push_rejected _ _ hrej]
      simp only [sub_self, Int.toNat_zero, List.take_zero, List.append_nil]
      rfl
  | pop turbo len =>
    simp only [AudioCall.log, AudioCall.run, removedBy, List.append_nil]
    have hinv2 : FifoInv { s with turboMode := turbo } := hinv
    have hc : contents ({ s with turboMode := turbo } : AudioState) = contents s := rfl
    by_cases hacc : turbo = false ∧ ((len / 2 : Nat) : Int) ≤ s.audioFifoLen
    · obtain ⟨a, b, c, d, _, _⟩ := pop_served_spec { s with turboMode := turbo } len hinv2
        hacc.1 hacc.2
      rw [a, d]
      have hlen : (oldest ({ s with turboMode := turbo } : AudioState) (len / 2)).length
          = len / 2 := by simp [oldest]
      have ht : (({ s with turboMode := turbo } : AudioState).audioFifoLen -
          (({ s with turboMode := turbo } : AudioState).audioFifoLen
            - ((len / 2 : Nat) : Int))).toNat = len / 2 := by omega
      rw [ht, List.take_of_length_le (by rw [hlen]), ← hc]
      exact contents_split _ _ (len / 2) hinv2 hacc.2 b c d
    · have hrej : ({ s with turboMode := turbo } : AudioState).turboMode = true ∨
          ({ s with turboMode := turbo } : AudioState).audioFifoLen
            < ((len / 2 : Nat) : Int) := by
        simp only []
        by_cases ht : turbo = true
        · exact Or.inl ht
        · right
          have hf : turbo = false := by simpa using ht
          exact lt_of_not_le (fun h => hacc ⟨hf, h⟩)
      rw [pop_silent _ _ hrej]
      simp only [sub_self, Int.toNat_zero, List.take_zero, List.nil_append]
      rfl

theorem runLog_state (calls : List AudioCall) : ∀ (s : AudioState),
    (runLog s calls).1 = runCalls s calls := by
  induction calls with
  | nil => intro s; rfl
  | cons c cs ih => intro s; simp only [runLog, runCalls, List.foldl_cons]; exact ih _

/-- The history equation over a whole run, from any state satisfying the
invariant. -/
theorem runLog_spec (calls : List AudioCall) : ∀ (s : AudioState), FifoInv s →
    contents s ++ (runLog s calls).2.1 = (runLog s calls).2.2 ++ contents (runLog s calls).1 := by
  induction calls with
  | nil => intro s _; simp [runLog]
  | cons c cs ih =>
    intro s hinv
    have h1 := log_step s c hinv
    have h2 := ih (c.run s) (run_preserves_inv s c hinv)
    simp only [runLog]
    rw [← List.append_assoc, h1, List.append_assoc, h2, List.append_assoc]

theorem empty_inv (fifo : Int → Int) (turbo sent : Bool) :
    FifoInv (AudioState.empty fifo turbo sent) := by
  simp [FifoInv, AudioState.empty, AUDIO_FIFO_CAP]

theorem empty_contents (fifo : Int → Int) (turbo sent : Bool) :
    contents (AudioState.empty fifo turbo sent) = [] := by
  simp [contents, AudioState.empty]

/-! ## The claims on the audio ring buffer -/

/-- C1: starting from the empty buffer (head 0, length 0) with `C = 8192`, after
every call of every finite sequence of push and pop calls, made under any values
of the accelerated-mode flag, the length is in `[0, C]` and the head in
`[0, C)`. -/
theorem fifo_bounds_after_every_call (fifo : Int → Int) (turbo sent : Bool)
    (calls : List AudioCall) (k : Nat) :
    AUDIO_FIFO_CAP = 8192 ∧
    0 ≤ (runCalls (AudioState.empty fifo turbo sent) (calls.take k)).audioFifoLen ∧
    (runCalls (AudioState.empty fifo turbo sent) (calls.take k)).audioFifoLen
      ≤ AUDIO_FIFO_CAP ∧
    0 ≤ (runCalls (AudioState.empty fifo turbo sent) (calls.take k)).audioFifoHead ∧
    (runCalls (AudioState.empty fifo turbo sent) (calls.take k)).audioFifoHead
      < AUDIO_FIFO_CAP :=
  ⟨rfl, runCalls_preserves_inv (calls.take k) _ (empty_inv fifo turbo sent)⟩

/-- C2: FIFO order.  For every finite sequence of push and pop calls from the
empty buffer, the accepted batches, concatenated in call order, are the removed
samples, concatenated in call order, followed by the samples still buffered
(read from head for length positions, modulo `C`); in particular the removed
samples are a prefix of the accepted ones. -/
theorem fifo_order (fifo : Int → Int) (turbo sent : Bool) (calls : List AudioCall) :
    (runLog (AudioState.empty fifo turbo sent) calls).1
      = runCalls (AudioState.empty fifo turbo sent) calls ∧
    (runLog (AudioState.empty fifo turbo sent) calls).2.1
      = (runLog (AudioState.empty fifo turbo sent) calls).2.2
        ++ contents (runLog (AudioState.empty fifo turbo sent) calls).1 ∧
    (runLog (AudioState.empty fifo turbo sent) calls).2.2
      <+: (runLog (AudioState.empty fifo turbo sent) calls).2.1 := by
  have h := runLog_spec calls _ (empty_inv fifo turbo sent)
  rw [empty_contents, List.nil_append] at h
  exact ⟨runLog_state calls _, h, ⟨_, h.symm⟩⟩

/-- C3: atomic rejection.  For every buffer state (satisfying the invariant or
not) and every batch with `length + count > C`, push leaves the head index, the
length and all storage cells unchanged. -/
theorem push_overflow_leaves_buffer_unchanged (s : AudioState) (finalWave : List Int)
    (hover : s.audioFifoLen + (finalWave.length : Int) > AUDIO_FIFO_CAP) :
    (systemOnWriteDataToSoundBuffer s finalWave).audioFifoHead = s.audioFifoHead ∧
    (systemOnWriteDataToSoundBuffer s finalWave).audioFifoLen = s.audioFifoLen ∧
    (systemOnWriteDataToSoundBuffer s finalWave).audioFifo = s.audioFifo := by
  rw [push_rejected s finalWave (Or.inr (le_of_lt hover))]
  exact ⟨rfl, rfl, rfl⟩

/-- C3, scenario of the specification: with `C = 8192`, a push of 5000 samples
into the empty buffer is accepted, and a second push of 5000 samples is rejected,
the length remaining 5000 and head and storage unchanged. -/
theorem push_overflow_leaves_buffer_unchanged_witness :
    (systemOnWriteDataToSoundBuffer AudioState.init (List.replicate 5000 1)).audioFifoLen
      = 5000 ∧
    (systemOnWriteDataToSoundBuffer AudioState.init (List.replicate 5000 1)).audioFifoLen
      + ((List.replicate 5000 (1 : Int)).length : Int) > AUDIO_FIFO_CAP ∧
    (systemOnWriteDataToSoundBuffer
        (systemOnWriteDataToSoundBuffer AudioState.init (List.replicate 5000 1))
        (List.replicate 5000 1)).audioFifoLen = 5000 ∧
    (systemOnWriteDataToSoundBuffer
        (systemOnWriteDataToSoundBuffer AudioState.init (List.replicate 5000 1))
        (List.replicate 5000 1)).audioFifoHead
      = (systemOnWriteDataToSoundBuffer AudioState.init (List.replicate 5000 1)).audioFifoHead ∧
    (systemOnWriteDataToSoundBuffer
        (systemOnWriteDataToSoundBuffer AudioState.init (List.replicate 5000 1))
        (List.replicate 5000 1)).audioFifo
      = (systemOnWriteDataToSoundBuffer AudioState.init (List.replicate 5000 1)).audioFifo := by
  have hinit : FifoInv AudioState.init := by decide
  have hlen : (systemOnWriteDataToSoundBuffer AudioState.init
      (List.replicate 5000 1)).audioFifoLen = 5000 := by
    rw [(push_accepted_spec AudioState.init (List.replicate 5000 1) hinit rfl
      (by simp only [List.length_replicate, AudioState.init, AUDIO_FIFO_CAP]; norm_num)).1]
    simp only [List.length_replicate, AudioState.init]; norm_num
  have hover : (systemOnWriteDataToSoundBuffer AudioState.init
      (List.replicate 5000 1)).audioFifoLen
      + ((List.replicate 5000 (1 : Int)).length : Int) > AUDIO_FIFO_CAP := by
    rw [hlen]; simp only [List.length_replicate, AUDIO_FIFO_CAP]; norm_num
  have h := push_overflow_leaves_buffer_unchanged
    (systemOnWriteDataToSoundBuffer AudioState.init (List.replicate 5000 1))
    (List.replicate 5000 1) hover
  exact ⟨hlen, hover, h.2.1.trans hlen, h.1, h.2.2⟩

/-- C4, at the boundary: with accelerated mode off, a batch of 8192 samples
pushed into the empty buffer satisfies `length + count ≤ C`, yet the guard
`audioFifoLen + length >= AUDIO_FIFO_CAP` rejects it: nothing is stored and the
length stays 0 instead of growing to 8192. -/
theorem push_exact_fit_is_rejected :
    FifoInv AudioState.init ∧ AudioState.init.turboMode = false ∧
    AudioState.init.audioFifoLen + ((List.replicate 8192 (1 : Int)).length : Int)
      ≤ AUDIO_FIFO_CAP ∧
    (systemOnWriteDataToSoundBuffer AudioState.init (List.replicate 8192 1)).audioFifoLen = 0 ∧
    (systemOnWriteDataToSoundBuffer AudioState.init (List.replicate 8192 1)).audioFifo
      = AudioState.init.audioFifo ∧
    contents (systemOnWriteDataToSoundBuffer AudioState.init (List.replicate 8192 1)) = [] := by
  have hrej := push_rejected AudioState.init (List.replicate 8192 1)
    (Or.inr (by simp only [List.length_replicate, AudioState.init, AUDIO_FIFO_CAP]; norm_num))
  refine ⟨by decide, rfl,
    by simp only [List.length_replicate, AudioState.init, AUDIO_FIFO_CAP]; norm_num, ?_, ?_, ?_⟩
  · rw [hrej]; rfl
  · rw [hrej]
  · rw [hrej]; rfl

/-- C5, as stated, fails: with the two samples 7, 9 buffered and accelerated mode
off, a pop of four samples is an underrun, but the stream is all zeros rather
than `7, 9, 0, 0`, and the length stays 2 rather than becoming 0. -/
theorem underrun_drain_counterexample :
    twoSamples.turboMode = false ∧ contents twoSamples = [7, 9] ∧
    twoSamples.audioFifoLen < ((8 / 2 : Nat) : Int) ∧
    (audioCallback twoSamples 8).2 = [0, 0, 0, 0] ∧
    (audioCallback twoSamples 8).1.audioFifoLen = 2 ∧
    ¬ ((audioCallback twoSamples 8).2
          = contents twoSamples ++ List.replicate (8 / 2 - 2) 0 ∧
       (audioCallback twoSamples 8).1.audioFifoLen = 0) := by
  decide

/-- C5, amended: for every buffer state and every pop request with
`length < count`, pop zero-fills the whole destination and leaves the buffer
(head, length, storage, flags) unchanged: no buffered sample is consumed. -/
theorem underrun_delivers_silence_and_keeps_buffer (s : AudioState) (len : Nat)
    (hunder : s.audioFifoLen < ((len / 2 : Nat) : Int)) :
    (audioCallback s len).2 = List.replicate (len / 2) 0 ∧
    (audioCallback s len).1 = s ∧
    contents (audioCallback s len).1 = contents s := by
  rw [pop_silent s len (Or.inr hunder)]
  exact ⟨rfl, rfl, rfl⟩

/-- C5, amended, on the scenario of the specification: with 5000 samples
buffered, a pop of 6000 samples (12000 bytes) returns 6000 zero samples and the
length stays 5000. -/
theorem underrun_delivers_silence_and_keeps_buffer_witness :
    (systemOnWriteDataToSoundBuffer AudioState.init (List.replicate 5000 1)).audioFifoLen
      = 5000 ∧
    (audioCallback (systemOnWriteDataToSoundBuffer AudioState.init (List.replicate 5000 1))
      12000).2 = List.replicate 6000 0 ∧
    (audioCallback (systemOnWriteDataToSoundBuffer AudioState.init (List.replicate 5000 1))
      12000).1.audioFifoLen = 5000 := by
  have hlen : (systemOnWriteDataToSoundBuffer AudioState.init
      (List.replicate 5000 1)).audioFifoLen = 5000 := by
    rw [(push_accepted_spec AudioState.init (List.replicate 5000 1) (by decide) rfl
      (by simp only [List.length_replicate, AudioState.init, AUDIO_FIFO_CAP]; norm_num)).1]
    simp only [List.length_replicate, AudioState.init]; norm_num
  have h := underrun_delivers_silence_and_keeps_buffer
    (systemOnWriteDataToSoundBuffer AudioState.init (List.replicate 5000 1)) 12000
    (by rw [hlen]; norm_num)
  refine ⟨hlen, ?_, ?_⟩
  · rw [h.1]
  · rw [h.2.1, hlen]

/-- C6, as stated, fails: with the two samples 7, 9 buffered (invariant holding,
`length ≥ count`) and accelerated mode on, a pop of two samples returns two
zeros, not `7, 9`, and neither advances the head nor decreases the length. -/
theorem pop_in_turbo_counterexample :
    FifoInv { twoSamples with turboMode := true } ∧
    ((4 / 2 : Nat) : Int) ≤ ({ twoSamples with turboMode := true } : AudioState).audioFifoLen ∧
    oldest { twoSamples with turboMode := true } (4 / 2) = [7, 9] ∧
    (audioCallback { twoSamples with turboMode := true } 4).2 = [0, 0] ∧
    (audioCallback { twoSamples with turboMode := true } 4).1.audioFifoHead = 0 ∧
    (audioCallback { twoSamples with turboMode := true } 4).1.audioFifoLen = 2 ∧
    ¬ ((audioCallback { twoSamples with turboMode := true } 4).2
          = oldest { twoSamples with turboMode := true } (4 / 2) ∧
       (audioCallback { twoSamples with turboMode := true } 4).1.audioFifoHead
          = (({ twoSamples with turboMode := true } : AudioState).audioFifoHead + 2)
              % AUDIO_FIFO_CAP ∧
       (audioCallback { twoSamples with turboMode := true } 4).1.audioFifoLen
          = ({ twoSamples with turboMode := true } : AudioState).audioFifoLen - 2) := by
  decide

/-- C6, amended: with accelerated mode off, for every buffer state satisfying
the invariant and every pop request of `count = len / 2` samples with
`length ≥ count`, pop fills the destination with exactly the `count` oldest
buffered samples in order (`storage[(head + i) mod C]` for `i < count`),
advances head to `(head + count) mod C`, decreases length by exactly `count`,
and leaves the storage as it was. -/
theorem pop_delivers_oldest_samples (s : AudioState) (len : Nat) (hinv : FifoInv s)
    (hturbo : s.turboMode = false) (henough : ((len / 2 : Nat) : Int) ≤ s.audioFifoLen) :
    (audioCallback s len).2.length = len / 2 ∧
    (audioCallback s len).2
      = (List.range (len / 2)).map
          (fun (i : Nat) => s.audioFifo ((s.audioFifoHead + (i : Int)) % AUDIO_FIFO_CAP)) ∧
    (audioCallback s len).1.audioFifoHead
      = (s.audioFifoHead + ((len / 2 : Nat) : Int)) % AUDIO_FIFO_CAP ∧
    (audioCallback s len).1.audioFifoLen = s.audioFifoLen - ((len / 2 : Nat) : Int) ∧
    (audioCallback s len).1.audioFifo = s.audioFifo ∧
    contents s = (audioCallback s len).2 ++ contents (audioCallback s len).1 := by
  obtain ⟨a, b, c, d, _, _⟩ := pop_served_spec s len hinv hturbo henough
  refine ⟨?_, a, c, d, b, ?_⟩
  · rw [a]; simp [oldest]
  · rw [a]; exact contents_split s _ (len / 2) hinv henough b c d

/-- C6, amended, on a concrete buffer: with 7, 9 buffered and accelerated mode
off, a pop of two samples returns `7, 9`, moves the head to 2 and empties the
buffer. -/
theorem pop_delivers_oldest_samples_witness :
    FifoInv twoSamples ∧ twoSamples.turboMode = false ∧
    ((4 / 2 : Nat) : Int) ≤ twoSamples.audioFifoLen ∧
    (audioCallback twoSamples 4).2 = [7, 9] ∧
    (audioCallback twoSamples 4).1.audioFifoHead = 2 ∧
    (audioCallback twoSamples 4).1.audioFifoLen = 0 := by
  have h := pop_delivers_oldest_samples twoSamples 4 (by decide) (by decide) (by decide)
  refine ⟨by decide, by decide, by decide, ?_, ?_, ?_⟩
  · rw [h.2.1]; decide
  · rw [h.2.2.1]; decide
  · rw [h.2.2.2.1]; decide

/-- C7: even truncation.  For every push call the number of samples added to the
buffer is 0 or `count` rounded down to an even number; and when `count` is odd
and the batch is enqueued (accelerated mode off, `length + count < C`, invariant
holding), exactly the first `count - 1` samples are stored, in order at the
positions `(head + length + i) mod C`, every other cell keeping its value, so
that the last sample is dropped. -/
theorem push_truncates_to_even (s : AudioState) (finalWave : List Int) :
    ((systemOnWriteDataToSoundBuffer s finalWave).audioFifoLen = s.audioFifoLen + 0 ∨
     (systemOnWriteDataToSoundBuffer s finalWave).audioFifoLen
        = s.audioFifoLen + ((2 * (finalWave.length / 2) : Nat) : Int)) ∧
    (FifoInv s → finalWave.length % 2 = 1 → s.turboMode = false →
      s.audioFifoLen + (finalWave.length : Int) < AUDIO_FIFO_CAP →
      (systemOnWriteDataToSoundBuffer s finalWave).audioFifoLen
        = s.audioFifoLen + ((finalWave.length - 1 : Nat) : Int) ∧
      contents (systemOnWriteDataToSoundBuffer s finalWave)
        = contents s ++ finalWave.take (finalWave.length - 1) ∧
      (∀ (i : Nat) (hi : i < finalWave.length - 1),
        (systemOnWriteDataToSoundBuffer s finalWave).audioFifo
            ((s.audioFifoHead + s.audioFifoLen + (i : Int)) % AUDIO_FIFO_CAP)
          = finalWave.get ⟨i, by omega⟩) ∧
      (∀ j : Int,
        (∀ i : Nat, i < finalWave.length - 1 →
          j ≠ (s.audioFifoHead + s.audioFifoLen + (i : Int)) % AUDIO_FIFO_CAP) →
        (systemOnWriteDataToSoundBuffer s finalWave).audioFifo j = s.audioFifo j)) := by
  constructor
  · by_cases hacc : s.turboMode = false ∧ s.audioFifoLen + (finalWave.length : Int) < AUDIO_FIFO_CAP
    · right
      rw [push_accepted s finalWave hacc.1 hacc.2, writeLoop_len, take_even_length]
      · simp only []; push_cast; omega
      · rw [take_even_length]; simp only []; push_cast; omega
    · left
      rw [push_rejected]
      · simp
      · by_cases ht : s.turboMode = true
        · exact Or.inl ht
        · right
          have hf : s.turboMode = false := by simpa using ht
          exact not_lt.mp (fun h => hacc ⟨hf, h⟩)
  · intro hinv hodd ht hfit
    have he : (finalWave.length / 2) * 2 = finalWave.length - 1 := by omega
    obtain ⟨a, _, c⟩ := push_accepted_spec s finalWave hinv ht hfit
    rw [he] at a c
    have hpush := push_accepted s finalWave ht hfit
    rw [he] at hpush
    obtain ⟨hl0, hl1, hh0, hh1⟩ := hinv
    have hw : Int.tmod (s.audioFifoHead + s.audioFifoLen) AUDIO_FIFO_CAP
        = (s.audioFifoHead + s.audioFifoLen) % 8192 := tmod_cap (by omega)
    have hw0 : 0 ≤ Int.tmod (s.audioFifoHead + s.audioFifoLen) AUDIO_FIFO_CAP := by
      rw [hw]; omega
    have hw1 : Int.tmod (s.audioFifoHead + s.audioFifoLen) AUDIO_FIFO_CAP < AUDIO_FIFO_CAP := by
      rw [hw, cap_eq]; omega
    have htl : (finalWave.take (finalWave.length - 1)).length = finalWave.length - 1 := by
      rw [List.length_take]; omega
    refine ⟨a, c, ?_, ?_⟩
    · intro i hi
      have hi2 : i < (finalWave.take (finalWave.length - 1)).length := by rw [htl]; exact hi
      have := writeLoop_fifo_written (finalWave.take (finalWave.length - 1))
        { s with audioSent := true } _ hw0 hw1
        (by rw [htl, cap_eq] at *; simp only []; omega) hl0 i hi2
      rw [hpush]
      have e : (s.audioFifoHead + s.audioFifoLen + (i : Int)) % AUDIO_FIFO_CAP
          = (Int.tmod (s.audioFifoHead + s.audioFifoLen) AUDIO_FIFO_CAP + (i : Int))
              % AUDIO_FIFO_CAP := by
        rw [hw, cap_eq]; omega
      rw [e, this]
      simp
    · intro j hj
      rw [hpush, writeLoop_fifo_other _ _ _ _ hw0 hw1]
      intro i hi
      rw [htl] at hi
      have := hj i hi
      rw [hw]
      rw [cap_eq] at this ⊢
      omega

/-- C7 on a concrete batch: pushing `1, 2, 3` into the empty buffer stores
`1, 2` and drops `3`. -/
theorem push_truncates_to_even_witness :
    FifoInv AudioState.init ∧ [(1 : Int), 2, 3].length % 2 = 1 ∧
    (systemOnWriteDataToSoundBuffer AudioState.init [1, 2, 3]).audioFifoLen = 2 ∧
    contents (systemOnWriteDataToSoundBuffer AudioState.init [1, 2, 3]) = [1, 2] := by
  have h := (push_truncates_to_even AudioState.init [1, 2, 3]).2 (by decide) (by decide)
    (by decide) (by decide)
  refine ⟨by decide, by decide, ?_, ?_⟩
  · rw [h.1]; decide
  · rw [h.2.1]; decide

/-! ## Lemmas on the autosave path -/

/-- The flush routine touches neither the snapshot, nor the live region, nor the
debounce flags, and counts one call. -/
theorem emuUpdateSaveFile_frame (fopenOk : Bool) (s : SaveState) :
    (emuUpdateSaveFile fopenOk s).1.lastSaveBuf = s.lastSaveBuf ∧
    (emuUpdateSaveFile fopenOk s).1.libretro_save_buf = s.libretro_save_buf ∧
    (emuUpdateSaveFile fopenOk s).1.prevSaveChanged = s.prevSaveChanged ∧
    (emuUpdateSaveFile fopenOk s).1.autoSaveEnabled = s.autoSaveEnabled ∧
    (emuUpdateSaveFile fopenOk s).1.savFilePath = s.savFilePath ∧
    (emuUpdateSaveFile fopenOk s).1.flushCalls = s.flushCalls + 1 := by
  unfold emuUpdateSaveFile emuShowOsd
  by_cases hp : s.savFilePath.length = 0 <;> cases fopenOk <;> simp [hp]

/-- With autosave disabled the check does nothing. -/
theorem emuCheckSave_disabled (fopenOk : Bool) (s : SaveState)
    (h : s.autoSaveEnabled = false) : emuCheckSave fopenOk s = s := by
  simp [emuCheckSave, h]

/-- A check that finds the live region different from the snapshot copies it and
records the change, without flushing. -/
theorem emuCheckSave_changed (fopenOk : Bool) (s : SaveState)
    (hen : s.autoSaveEnabled = true) (h : s.libretro_save_buf ≠ s.lastSaveBuf) :
    emuCheckSave fopenOk s
      = { s with lastSaveBuf := s.libretro_save_buf, prevSaveChanged := true } := by
  have h2 : s.lastSaveBuf ≠ s.libretro_save_buf := fun e => h e.symm
  simp [emuCheckSave, hen, h2]

/-- A check that finds the live region equal to the snapshot after a changed
check flushes once and clears the flag. -/
theorem emuCheckSave_settled (fopenOk : Bool) (s : SaveState)
    (hen : s.autoSaveEnabled = true) (h : s.libretro_save_buf = s.lastSaveBuf)
    (hprev : s.prevSaveChanged = true) :
    emuCheckSave fopenOk s
      = { (emuUpdateSaveFile fopenOk s).1 with prevSaveChanged := false } := by
  simp [emuCheckSave, hen, h.symm, hprev]

/-- A check that finds the live region equal to the snapshot after an unchanged
check does nothing but rewrite the flag with the same value. -/
theorem emuCheckSave_quiet (fopenOk : Bool) (s : SaveState)
    (hen : s.autoSaveEnabled = true) (h : s.libretro_save_buf = s.lastSaveBuf)
    (hprev : s.prevSaveChanged = false) :
    emuCheckSave fopenOk s = s := by
  cases s
  simp_all [emuCheckSave]

/-- A check never flushes when the live region differs from the snapshot. -/
theorem check_differs_no_flush (s : SaveState) (c : CheckStep)
    (h : (c.before s).libretro_save_buf ≠ (c.before s).lastSaveBuf) :
    (c.run s).flushCalls = s.flushCalls ∧ (c.run s).savFile = s.savFile := by
  have hb : (c.before s).flushCalls = s.flushCalls ∧ (c.before s).savFile = s.savFile := by
    unfold CheckStep.before; split <;> exact ⟨rfl, rfl⟩
  unfold CheckStep.run
  cases hen : (c.before s).autoSaveEnabled with
  | false => rw [emuCheckSave_disabled _ _ hen]; exact hb
  | true => rw [emuCheckSave_changed _ _ hen h]; exact hb

/-- Over a run in which the live region differs from the snapshot at every
check, the flush counter does not move. -/
theorem differs_run_no_flush (cs : List CheckStep) : ∀ (s : SaveState),
    DiffersAtEvery s cs →
    flushTrace s cs = List.replicate cs.length 0 ∧
    (runChecks s cs).flushCalls = s.flushCalls ∧
    (runChecks s cs).savFile = s.savFile := by
  induction cs with
  | nil => intro s _; exact ⟨rfl, rfl, rfl⟩
  | cons c cs ih =>
    intro s h
    obtain ⟨h1, h2⟩ := h
    obtain ⟨hc, hf⟩ := check_differs_no_flush s c h1
    obtain ⟨a, b, d⟩ := ih (c.run s) h2
    refine ⟨?_, ?_, ?_⟩
    · simp only [flushTrace, List.length_cons, List.replicate_succ, a, hc, Nat.sub_self]
    · simp only [runChecks, List.foldl_cons]
      exact b.trans hc
    · simp only [runChecks, List.foldl_cons]
      exact d.trans hf

/-- With autosave enabled, after a non-empty run of checks that each found the
live region different, the snapshot equals the live region and the flag
`prevSaveChanged` is set. -/
theorem differs_run_state (cs : List CheckStep) : ∀ (s : SaveState),
    s.autoSaveEnabled = true → cs ≠ [] → DiffersAtEvery s cs →
    (runChecks s cs).autoSaveEnabled = true ∧
    (runChecks s cs).prevSaveChanged = true ∧
    (runChecks s cs).lastSaveBuf = (runChecks s cs).libretro_save_buf := by
  induction cs with
  | nil => intro s _ h; exact absurd rfl h
  | cons c cs ih =>
    intro s hen _ h
    obtain ⟨h1, h2⟩ := h
    have hbe : (c.before s).autoSaveEnabled = true := by
      unfold CheckStep.before; split <;> exact hen
    have hrun : c.run s = { (c.before s) with lastSaveBuf := (c.before s).libretro_save_buf,
                                              prevSaveChanged := true } :=
      emuCheckSave_changed _ _ hbe h1
    simp only [runChecks, List.foldl_cons]
    by_cases hcs : cs = []
    · subst hcs
      simp only [List.foldl_nil]
      rw [hrun]
      exact ⟨hbe, rfl, rfl⟩
    · exact ih (c.run s) (by rw [hrun]; exact hbe) hcs h2

/-- From a quiescent state (autosave enabled, snapshot equal to the live region,
previous check not changed), a run of checks during which the engine leaves the
region unmodified never flushes. -/
theorem quiet_run_no_flush (cs : List CheckStep) (s : SaveState)
    (hen : s.autoSaveEnabled = true) (heq : s.libretro_save_buf = s.lastSaveBuf)
    (hprev : s.prevSaveChanged = false) (hun : Unmodified cs) :
    flushTrace s cs = List.replicate cs.length 0 ∧ runChecks s cs = s := by
  induction cs with
  | nil => exact ⟨rfl, rfl⟩
  | cons c cs ih =>
    have hw : c.write = none := hun c (List.mem_cons_self _ _)
    have hb : c.before s = s := by unfold CheckStep.before; rw [hw]
    have hrun : c.run s = s := by
      unfold CheckStep.run; rw [hb]; exact emuCheckSave_quiet _ _ hen heq hprev
    have hun2 : Unmodified cs := fun d hd => hun d (List.mem_cons_of_mem _ hd)
    refine ⟨?_, ?_⟩
    · simp only [flushTrace, List.length_cons, List.replicate_succ, hrun, Nat.sub_self,
        (ih hun2).1]
    · simp only [runChecks, List.foldl_cons, hrun]
      exact (ih hun2).2

/-- The first unmodified check after a changed one flushes exactly once and
leaves a quiescent state. -/
theorem settle_check (c : CheckStep) (s : SaveState)
    (hen : s.autoSaveEnabled = true) (heq : s.libretro_save_buf = s.lastSaveBuf)
    (hprev : s.prevSaveChanged = true) (hw : c.write = none) :
    (c.run s).flushCalls = s.flushCalls + 1 ∧
    (c.run s).autoSaveEnabled = true ∧
    (c.run s).libretro_save_buf = (c.run s).lastSaveBuf ∧
    (c.run s).prevSaveChanged = false := by
  have hb : c.before s = s := by unfold CheckStep.before; rw [hw]
  obtain ⟨f1, f2, _, f4, _, f6⟩ := emuUpdateSaveFile_frame c.fopenOk s
  unfold CheckStep.run
  rw [hb, emuCheckSave_settled _ _ hen heq hprev]
  exact ⟨f6, f4.trans hen, by simp only []; rw [f1, f2]; exact heq, rfl⟩

theorem flushTrace_append (pre : List CheckStep) : ∀ (s : SaveState) (post : List CheckStep),
    flushTrace s (pre ++ post) = flushTrace s pre ++ flushTrace (runChecks s pre) post := by
  induction pre with
  | nil => intro s post; rfl
  | cons c cs ih =>
    intro s post
    show _ :: flushTrace (c.run s) (cs ++ post) = _ :: _ ++ flushTrace (runChecks (c.run s) cs) post
    rw [ih]
    rfl

/-! ## The claims on the autosave debouncer -/

/-- C8, as stated, fails: from the state left by `emuLoadROM` (snapshot equal to
the live region, previous check not changed) with `autoSaveEnabled` at its
initial value 0, a run in which the region differs at the first check and is
left unmodified for the following check contains no flush at all. -/
theorem autosave_disabled_counterexample :
    loadedState.lastSaveBuf = loadedState.libretro_save_buf ∧
    loadedState.prevSaveChanged = false ∧
    DiffersAtEvery loadedState [⟨some [1], true⟩] ∧
    Unmodified [⟨none, true⟩] ∧
    flushTrace loadedState ([⟨some [1], true⟩] ++ [⟨none, true⟩]) = [0, 0] ∧
    ¬ (flushTrace loadedState ([⟨some [1], true⟩] ++ [⟨none, true⟩])
        = List.replicate 1 0 ++ 1 :: List.replicate (1 - 1) 0) := by
  decide

/-- C8, amended: with autosave enabled (`autoSaveEnabled` non-zero), from any
state, for every run of debounce checks in which the live region differs from
the snapshot at each of the first `k ≥ 1` checks and is then left unmodified for
the following `m ≥ 1` checks, exactly one flush occurs during the whole run, and
it occurs during check `k + 1`: the per-check flush counts are `k` zeros, a one,
and `m - 1` zeros. -/
theorem autosave_flushes_once_after_stabilisation (s : SaveState)
    (pre post : List CheckStep) (hen : s.autoSaveEnabled = true)
    (hk : 1 ≤ pre.length) (hm : 1 ≤ post.length)
    (hdiff : DiffersAtEvery s pre) (hun : Unmodified post) :
    flushTrace s (pre ++ post)
      = List.replicate pre.length 0 ++ 1 :: List.replicate (post.length - 1) 0 ∧
    (flushTrace s (pre ++ post)).sum = 1 ∧
    (runChecks s (pre ++ post)).flushCalls = s.flushCalls + 1 := by
  obtain ⟨t1, n1, _⟩ := differs_run_no_flush pre s hdiff
  have hne : pre ≠ [] := by
    intro h; rw [h] at hk; exact absurd hk (by decide)
  obtain ⟨e1, p1, q1⟩ := differs_run_state pre s hen hne hdiff
  cases post with
  | nil => exact absurd hm (by decide)
  | cons c rest =>
    have hw : c.write = none := hun c (List.mem_cons_self _ _)
    have hun2 : Unmodified rest := fun d hd => hun d (List.mem_cons_of_mem _ hd)
    obtain ⟨a, b, c2, d⟩ := settle_check c (runChecks s pre) e1 q1.symm p1 hw
    obtain ⟨t2, r2⟩ := quiet_run_no_flush rest (c.run (runChecks s pre)) b c2 d hun2
    have htrace : flushTrace s (pre ++ c :: rest)
        = List.replicate pre.length 0 ++ 1 :: List.replicate ((c :: rest).length - 1) 0 := by
      rw [flushTrace_append, t1]
      simp only [flushTrace, t2, a, List.length_cons, Nat.add_sub_cancel, Nat.add_sub_cancel_left]
    refine ⟨htrace, ?_, ?_⟩
    · rw [htrace]; simp
    · have : runChecks s (pre ++ c :: rest)
          = runChecks (c.run (runChecks s pre)) rest := by
        simp [runChecks, List.foldl_append]
      rw [this, r2, a, n1]

/-- C8, amended, on a concrete run: with autosave enabled, two changing checks
followed by two unmodified ones flush once, at the third check. -/
theorem autosave_flushes_once_after_stabilisation_witness :
    flushTrace { loadedState with autoSaveEnabled := true }
      ([⟨some [1], true⟩, ⟨some [2], false⟩] ++ [⟨none, true⟩, ⟨none, true⟩])
      = [0, 0, 1, 0] :=
  (autosave_flushes_once_after_stabilisation { loadedState with autoSaveEnabled := true }
    [⟨some [1], true⟩, ⟨some [2], false⟩] [⟨none, true⟩, ⟨none, true⟩]
    rfl (by decide) (by decide) (by decide) (by decide)).1

/-- C9: for every run of debounce checks in which the live save region differs
from the snapshot at every check, no flush is ever performed: every per-check
flush count is 0, the flush counter and the save file are as before the run. -/
theorem changing_every_check_never_flushes (s : SaveState) (cs : List CheckStep)
    (hdiff : DiffersAtEvery s cs) :
    flushTrace s cs = List.replicate cs.length 0 ∧
    (runChecks s cs).flushCalls = s.flushCalls ∧
    (runChecks s cs).savFile = s.savFile :=
  differs_run_no_flush cs s hdiff

/-- C9 on a concrete run: with autosave enabled, three checks that each find a
new content of the live region perform no flush. -/
theorem changing_every_check_never_flushes_witness :
    DiffersAtEvery { loadedState with autoSaveEnabled := true }
      [⟨some [1], true⟩, ⟨some [2], true⟩, ⟨some [3], true⟩] ∧
    flushTrace { loadedState with autoSaveEnabled := true }
      [⟨some [1], true⟩, ⟨some [2], true⟩, ⟨some [3], true⟩] = [0, 0, 0] :=
  ⟨by decide,
   (changing_every_check_never_flushes { loadedState with autoSaveEnabled := true }
      [⟨some [1], true⟩, ⟨some [2], true⟩, ⟨some [3], true⟩] (by decide)).1⟩

/-- The flush routine, when the path is set and the file opens, leaves in the
file the bytes of the live save region that the disk has room for, all of them
when `fwrite` and `fclose` succeed; otherwise it leaves the file alone. -/
theorem emuUpdateSaveFile_file (fopenOk : Bool) (s : SaveState) :
    (s.savFilePath.length ≠ 0 → fopenOk = true →
      (emuUpdateSaveFile fopenOk s).1.savFile
        = some (s.libretro_save_buf.take s.diskRoom)) ∧
    (s.savFilePath.length ≠ 0 → fopenOk = true →
      s.libretro_save_buf.length ≤ s.diskRoom →
      (emuUpdateSaveFile fopenOk s).1.savFile = some s.libretro_save_buf) ∧
    (s.savFilePath.length = 0 ∨ fopenOk = false →
      (emuUpdateSaveFile fopenOk s).1.savFile = s.savFile) := by
  unfold emuUpdateSaveFile emuShowOsd
  by_cases hp : s.savFilePath.length = 0 <;> cases fopenOk <;> simp [hp]

/-- The flush routine with a file that opens but takes no byte: the file is
left empty, and the routine still reports success (`Auto saved.`, result 0). -/
theorem flush_on_full_disk :
    (emuUpdateSaveFile true dirtyAtExitDiskFull).1.savFile = some [] ∧
    (emuUpdateSaveFile true dirtyAtExitDiskFull).1.osdShowCount = 3 ∧
    (emuUpdateSaveFile true dirtyAtExitDiskFull).2 = 0 := by
  decide

/-- C10, as stated, fails for the flush on exit: when the live region has been
rewritten since the last copy into the snapshot, the exit flush writes the live
region to the file but the snapshot still holds the old bytes. -/
theorem exit_flush_counterexample :
    (mainExit true dirtyAtExit).flushCalls = dirtyAtExit.flushCalls + 1 ∧
    (mainExit true dirtyAtExit).savFile = some [1] ∧
    (mainExit true dirtyAtExit).libretro_save_buf = [1] ∧
    (mainExit true dirtyAtExit).lastSaveBuf = [0] ∧
    ¬ ((mainExit true dirtyAtExit).lastSaveBuf
        = (mainExit true dirtyAtExit).libretro_save_buf) := by
  decide

/-- C10, amended: after every flush triggered by the debounce check, the
snapshot `lastSaveBuf` is byte-for-byte equal to the live region
`libretro_save_buf`; and in every flush, whether triggered by the debounce check
or by the unconditional flush on exit, that opens the save file and whose
`fwrite` and `fclose` succeed (the disk takes the whole region), the bytes
written are the live region.  The flush on exit leaves the snapshot as it was. -/
theorem flush_snapshot_and_bytes_written (fopenOk : Bool) (s : SaveState) :
    ((emuCheckSave fopenOk s).flushCalls ≠ s.flushCalls →
      (emuCheckSave fopenOk s).lastSaveBuf = (emuCheckSave fopenOk s).libretro_save_buf ∧
      (emuCheckSave fopenOk s).libretro_save_buf = s.libretro_save_buf ∧
      (s.savFilePath.length ≠ 0 → fopenOk = true →
        s.libretro_save_buf.length ≤ s.diskRoom →
        (emuCheckSave fopenOk s).savFile = some s.libretro_save_buf)) ∧
    (s.savFilePath.length ≠ 0 → fopenOk = true →
      s.libretro_save_buf.length ≤ s.diskRoom →
      (mainExit fopenOk s).savFile = some s.libretro_save_buf) ∧
    (mainExit fopenOk s).libretro_save_buf = s.libretro_save_buf ∧
    (mainExit fopenOk s).lastSaveBuf = s.lastSaveBuf := by
  obtain ⟨f1, f2, _, _, _, _⟩ := emuUpdateSaveFile_frame fopenOk s
  refine ⟨?_, (emuUpdateSaveFile_file fopenOk s).2.1, f2, f1⟩
  intro hflush
  cases hen : s.autoSaveEnabled with
  | false => rw [emuCheckSave_disabled _ _ hen] at hflush; exact absurd rfl hflush
  | true =>
    by_cases heq : s.libretro_save_buf = s.lastSaveBuf
    · cases hprev : s.prevSaveChanged with
      | false => rw [emuCheckSave_quiet _ _ hen heq hprev] at hflush; exact absurd rfl hflush
      | true =>
        rw [emuCheckSave_settled _ _ hen heq hprev]
        refine ⟨?_, f2, (emuUpdateSaveFile_file fopenOk s).2.1⟩
        simp only []
        rw [f1, f2]
        exact heq.symm
    · rw [emuCheckSave_changed _ _ hen heq] at hflush
      exact absurd rfl hflush

/-- C10, amended, on a concrete check: with autosave enabled, the region `[5]`
copied at the previous check and unmodified since, and room on the disk, the
check flushes, writes `[5]` and leaves the snapshot equal to the live region;
the exit flush of `dirtyAtExit` writes `[1]`. -/
theorem flush_snapshot_and_bytes_written_witness :
    (emuCheckSave true { loadedState with autoSaveEnabled := true, lastSaveBuf := [5],
                                          libretro_save_buf := [5],
                                          prevSaveChanged := true }).flushCalls = 1 ∧
    (emuCheckSave true { loadedState with autoSaveEnabled := true, lastSaveBuf := [5],
                                          libretro_save_buf := [5],
                                          prevSaveChanged := true }).lastSaveBuf = [5] ∧
    (emuCheckSave true { loadedState with autoSaveEnabled := true, lastSaveBuf := [5],
                                          libretro_save_buf := [5],
                                          prevSaveChanged := true }).savFile = some [5] ∧
    (mainExit true dirtyAtExit).savFile = some [1] := by
  have h := flush_snapshot_and_bytes_written true
    { loadedState with autoSaveEnabled := true, lastSaveBuf := [5],
                       libretro_save_buf := [5], prevSaveChanged := true }
  have h1 := h.1 (by decide)
  have h2 := (flush_snapshot_and_bytes_written true dirtyAtExit).2.1 (by decide) rfl
    (by decide)
  refine ⟨by decide, ?_, ?_, ?_⟩
  · rw [h1.1, h1.2.1]
  · rw [h1.2.2 (by decide) rfl (by decide)]
  · rw [h2]; rfl

/-! ## Lemmas on the input state -/

/-- After the first `n` rounds of the latch loop, bit `j` is set exactly when
`j < n` and button `j` is asserted by the keyboard or the device. -/
theorem joy_prefix_testBit (st : KeyState) (n j : Nat) :
    ((List.range n).foldl
      (fun (joy : Nat) (i : Nat) =>
        if st i 0 ≠ 0 ∨ st i 1 ≠ 0 then joy ||| (1 <<< i) else joy) 0).testBit j
      = decide (j < n ∧ (st j 0 ≠ 0 ∨ st j 1 ≠ 0)) := by
  induction n with
  | zero => simp
  | succ n ih =>
    rw [List.range_succ, List.foldl_append, List.foldl_cons, List.foldl_nil]
    by_cases hp : st n 0 ≠ 0 ∨ st n 1 ≠ 0
    · rw [if_pos hp, Nat.testBit_or, ih, Nat.one_shiftLeft, Nat.testBit_two_pow]
      by_cases hj : n = j
      · subst hj; simp [hp]
      · have : j < n + 1 ↔ j < n := by omega
        simp [hj, this]
    · rw [if_neg hp, ih]
      by_cases hj : n = j
      · subst hj; simp [hp]
      · have : j < n + 1 ↔ j < n := by omega
        simp [this]

theorem buildJoy_testBit (st : KeyState) (j : Nat) :
    (buildJoy st).testBit j = decide (j < 10 ∧ (st j 0 ≠ 0 ∨ st j 1 ≠ 0)) :=
  joy_prefix_testBit st 10 j

theorem setKeyState_apply (st : KeyState) (i c : Nat) (v : Int) (a b : Nat) :
    setKeyState st i c v a b = if a = i ∧ b = c then v else st a b := rfl

theorem setKeyState_other (st : KeyState) (i c : Nat) (v : Int) (a b : Nat)
    (h : a ≠ i ∨ b ≠ c) : setKeyState st i c v a b = st a b := by
  rw [setKeyState_apply, if_neg]
  intro hc
  rcases h with h | h
  · exact h hc.1
  · exact h hc.2

/-- The key loop leaves the table alone when no remaining entry is the key. -/
theorem emuHandleKeyLoop_miss (key down : Int) (st : KeyState) (l : List Int) :
    ∀ (i : Nat), (∀ k ∈ l, k ≠ key) → emuHandleKeyLoop key down st i l = st := by
  induction l with
  | nil => intro i _; rfl
  | cons k rest ih =>
    intro i h
    have hk : k ≠ key := h k (List.mem_cons_self _ _)
    simp only [emuHandleKeyLoop, if_neg hk]
    exact ih (i + 1) (fun k2 h2 => h k2 (List.mem_cons_of_mem _ h2))

/-- The key loop over pairwise distinct entries sets the keyboard assertion of
the entry that is the key. -/
theorem emuHandleKeyLoop_hit (key down : Int) (st : KeyState) (l : List Int) :
    ∀ (i j : Nat) (hj : j < l.length), l.Nodup → l.get ⟨j, hj⟩ = key →
      emuHandleKeyLoop key down st i l = setKeyState st (i + j) 0 down := by
  induction l with
  | nil => intro i j hj; simp at hj
  | cons k rest ih =>
    intro i j hj hnd hget
    cases j with
    | zero =>
      have hk : k = key := by simpa using hget
      simp only [emuHandleKeyLoop, if_pos hk, Nat.add_zero]
    | succ j =>
      have hj2 : j < rest.length := by simpa using hj
      have hget2 : rest.get ⟨j, hj2⟩ = key := by simpa using hget
      have hk : k ≠ key := by
        intro e
        have hmem : key ∈ rest := by rw [← hget2]; exact List.get_mem _ _ _
        rw [← e] at hmem
        exact (List.nodup_cons.mp hnd).1 hmem
      simp only [emuHandleKeyLoop, if_neg hk]
      rw [ih (i + 1) j hj2 (List.nodup_cons.mp hnd).2 hget2]
      have e : i + 1 + j = i + (j + 1) := by omega
      rw [e]

theorem emuKeyboardMap_nodup : emuKeyboardMap.Nodup := by decide

theorem emuKeyboardMap_length : emuKeyboardMap.length = 12 := rfl

/-- The bitwise or of a button level with a comparison result is non-zero
exactly when the level is non-zero or the comparison holds. -/
theorem lor_cBool_ne_zero (n : Nat) (p : Prop) [Decidable p] :
    Int.lor (n : Int) (cBool p) ≠ 0 ↔ (n ≠ 0 ∨ p) := by
  unfold cBool
  by_cases hp : p
  · simp only [if_pos hp, hp, or_true, iff_true]
    show ((n ||| 1 : Nat) : Int) ≠ 0
    have h1 : (n ||| 1).testBit 0 = true := by simp [Nat.testBit_or]
    intro h0
    have h2 : n ||| 1 = 0 := by exact_mod_cast h0
    rw [h2] at h1
    simp at h1
  · simp only [if_neg hp, hp, or_false]
    show ((n ||| 0 : Nat) : Int) ≠ 0 ↔ n ≠ 0
    simp

/-- The button loop with the default map: the table it leaves. -/
theorem pollButtonsLoop_default (snap : JoystickSnapshot) (st : KeyState) :
    pollButtonsLoop snap st 0 emuJoystickMap
      = setKeyState (setKeyState (setKeyState (setKeyState (setKeyState (setKeyState
          (setKeyState (setKeyState (setKeyState (setKeyState (setKeyState (setKeyState st
            0 1 (snap.button 0)) 1 1 (snap.button 1)) 2 1 (snap.button 11))
            3 1 (snap.button 10)) 4 1 (snap.button 14)) 5 1 (snap.button 12))
            6 1 (snap.button 13)) 7 1 (snap.button 15)) 8 1 (snap.button 7))
            9 1 (snap.button 6)) 10 1 (snap.button 9)) 11 1 (snap.button 5) := by
  simp [pollButtonsLoop, emuJoystickMap]

/-- The axis part, cell by cell. -/
theorem pollAxes_cells (snap : JoystickSnapshot) (P : KeyState) :
    (∀ a b, ¬ (b = 1 ∧ (a = 4 ∨ a = 5 ∨ a = 6 ∨ a = 7)) → pollAxes snap P a b = P a b) ∧
    pollAxes snap P 4 1 = Int.lor (P 4 1) (cBool (snap.xaxis > emuJoystickDeadzone)) ∧
    pollAxes snap P 5 1 = Int.lor (P 5 1) (cBool (snap.xaxis < -emuJoystickDeadzone)) ∧
    pollAxes snap P 6 1 = Int.lor (P 6 1) (cBool (snap.yaxis < -emuJoystickDeadzone)) ∧
    pollAxes snap P 7 1 = Int.lor (P 7 1) (cBool (snap.yaxis > emuJoystickDeadzone)) := by
  refine ⟨?_, ?_, ?_, ?_, ?_⟩
  · intro a b h
    simp only [pollAxes, setKeyState_apply]
    split_ifs <;> first | rfl | omega
  all_goals simp [pollAxes, setKeyState_apply]

/-- The joystick poll with the default button map, cell by cell. -/
theorem pollJoystick_cells (snap : JoystickSnapshot) (st : KeyState) :
    (∀ a, pollJoystick snap st a 0 = st a 0) ∧
    (∀ a b, 12 ≤ a → pollJoystick snap st a b = st a b) ∧
    pollJoystick snap st 0 1 = snap.button 0 ∧
    pollJoystick snap st 1 1 = snap.button 1 ∧
    pollJoystick snap st 2 1 = snap.button 11 ∧
    pollJoystick snap st 3 1 = snap.button 10 ∧
    pollJoystick snap st 4 1
      = Int.lor (snap.button 14) (cBool (snap.xaxis > emuJoystickDeadzone)) ∧
    pollJoystick snap st 5 1
      = Int.lor (snap.button 12) (cBool (snap.xaxis < -emuJoystickDeadzone)) ∧
    pollJoystick snap st 6 1
      = Int.lor (snap.button 13) (cBool (snap.yaxis < -emuJoystickDeadzone)) ∧
    pollJoystick snap st 7 1
      = Int.lor (snap.button 15) (cBool (snap.yaxis > emuJoystickDeadzone)) ∧
    pollJoystick snap st 8 1 = snap.button 7 ∧
    pollJoystick snap st 9 1 = snap.button 6 ∧
    pollJoystick snap st 10 1 = snap.button 9 ∧
    pollJoystick snap st 11 1 = snap.button 5 := by
  obtain ⟨h0, h4, h5, h6, h7⟩ := pollAxes_cells snap (pollButtonsLoop snap st 0 emuJoystickMap)
  unfold pollJoystick
  refine ⟨?_, ?_, ?_, ?_, ?_, ?_, ?_, ?_, ?_, ?_, ?_, ?_, ?_, ?_⟩
  · intro a
    rw [h0 a 0 (by omega), pollButtonsLoop_default]
    repeat rw [setKeyState_other _ _ _ _ _ _ (Or.inr (by decide))]
  · intro a b ha
    rw [h0 a b (by omega), pollButtonsLoop_default]
    repeat rw [setKeyState_other _ _ _ _ _ _ (Or.inl (by omega))]
  · rw [h0 0 1 (by omega), pollButtonsLoop_default]; simp [setKeyState_apply]
  · rw [h0 1 1 (by omega), pollButtonsLoop_default]; simp [setKeyState_apply]
  · rw [h0 2 1 (by omega), pollButtonsLoop_default]; simp [setKeyState_apply]
  · rw [h0 3 1 (by omega), pollButtonsLoop_default]; simp [setKeyState_apply]
  · rw [h4, pollButtonsLoop_default]; simp [setKeyState_apply]
  · rw [h5, pollButtonsLoop_default]; simp [setKeyState_apply]
  · rw [h6, pollButtonsLoop_default]; simp [setKeyState_apply]
  · rw [h7, pollButtonsLoop_default]; simp [setKeyState_apply]
  · rw [h0 8 1 (by omega), pollButtonsLoop_default]; simp [setKeyState_apply]
  · rw [h0 9 1 (by omega), pollButtonsLoop_default]; simp [setKeyState_apply]
  · rw [h0 10 1 (by omega), pollButtonsLoop_default]; simp [setKeyState_apply]
  · rw [h0 11 1 (by omega), pollButtonsLoop_default]; simp [setKeyState_apply]

/-! ## The claims on the input state -/

/-- C11: for every button-state table, the bitmask built for the input latch at
a frame boundary has bit `i` set, for each `i` in `0..9`, if and only if
`emuKeyState[i][0]` or `emuKeyState[i][1]` is non-zero, and has no bit at
position 10 or above set; so the mask is 0 when every keyboard and device
assertion of buttons 0..9 is clear.  The latch of `frameInput` is this mask of
the table left by the poll. -/
theorem joy_mask_bits (st : KeyState) (joystick : Option JoystickSnapshot) :
    (∀ i, i < 10 → ((buildJoy st).testBit i = true ↔ (st i 0 ≠ 0 ∨ st i 1 ≠ 0))) ∧
    (∀ i, 10 ≤ i → (buildJoy st).testBit i = false) ∧
    ((∀ i, i < 10 → st i 0 = 0 ∧ st i 1 = 0) → buildJoy st = 0) ∧
    (frameInput joystick st).2.1 = buildJoy (frameInput joystick st).1 := by
  refine ⟨?_, ?_, ?_, rfl⟩
  · intro i hi
    rw [buildJoy_testBit]
    simp [hi]
  · intro i hi
    rw [buildJoy_testBit]
    have : ¬ i < 10 := by omega
    simp [this]
  · intro h
    apply Nat.eq_of_testBit_eq
    intro j
    rw [buildJoy_testBit, Nat.zero_testBit]
    by_cases hj : j < 10
    · have := h j hj
      simp [this.1, this.2]
    · simp [hj]

/-- C11 on concrete tables: with the keys of A and Left held and Turbo held, the
mask is `1 + 32`; with nothing asserted it is 0. -/
theorem joy_mask_bits_witness :
    buildJoy (handleKeyEvent (handleKeyEvent (handleKeyEvent allReleased SDLK_x true)
      SDLK_LEFT true) SDLK_TAB true) = 33 ∧
    buildJoy allReleased = 0 :=
  ⟨by decide, (joy_mask_bits allReleased none).2.2.1 (fun _ _ => ⟨rfl, rfl⟩)⟩

/-- C12: for every key code and every button-state table, `emuHandleKey`, as the
main loop calls it: if the code is the entry of `emuKeyboardMap` for logical
button `i`, sets `emuKeyState[i][0]` to 1 on key-down and to 0 on key-up (to
`down` in general) and leaves every other keyboard entry and every device entry
unchanged; if the code is no entry of the map, leaves the whole table
unchanged. -/
theorem key_event_sets_one_keyboard_entry (st : KeyState) (code down : Int) (isDown : Bool) :
    (∀ (i : Nat) (hi : i < emuKeyboardMap.length), emuKeyboardMap.get ⟨i, hi⟩ = code →
      emuHandleKey st code down i 0 = down ∧
      handleKeyEvent st code true i 0 = 1 ∧
      handleKeyEvent st code false i 0 = 0 ∧
      (∀ a, a ≠ i → emuHandleKey st code down a 0 = st a 0) ∧
      (∀ a b, b ≠ 0 → emuHandleKey st code down a b = st a b) ∧
      (∀ a, a ≠ i → handleKeyEvent st code isDown a 0 = st a 0) ∧
      (∀ a b, b ≠ 0 → handleKeyEvent st code isDown a b = st a b)) ∧
    ((∀ k ∈ emuKeyboardMap, k ≠ code) →
      emuHandleKey st code down = st ∧ handleKeyEvent st code isDown = st) ∧
    emuKeyboardMap.length = 12 := by
  refine ⟨?_, ?_, rfl⟩
  · intro i hi hget
    have hit : ∀ d, emuHandleKey st code d = setKeyState st i 0 d := by
      intro d
      unfold emuHandleKey
      rw [emuHandleKeyLoop_hit code d st emuKeyboardMap 0 i hi emuKeyboardMap_nodup hget,
        Nat.zero_add]
    unfold handleKeyEvent
    simp only [hit, setKeyState_apply]
    refine ⟨by simp, by simp, by simp, ?_, ?_, ?_, ?_⟩
    · intro a ha; simp [ha]
    · intro a b hb; simp [hb]
    · intro a ha; simp [ha]
    · intro a b hb; simp [hb]
  · intro h
    unfold handleKeyEvent emuHandleKey
    exact ⟨emuHandleKeyLoop_miss code down st _ 0 h, emuHandleKeyLoop_miss code _ st _ 0 h⟩

/-- C12 on concrete events: pressing Left sets keyboard entry 5, releasing it
clears the entry, and the unmapped key `q` changes nothing. -/
theorem key_event_sets_one_keyboard_entry_witness :
    handleKeyEvent allReleased SDLK_LEFT true 5 0 = 1 ∧
    handleKeyEvent (handleKeyEvent allReleased SDLK_LEFT true) SDLK_LEFT false 5 0 = 0 ∧
    handleKeyEvent allReleased 113 true = allReleased :=
  ⟨((key_event_sets_one_keyboard_entry allReleased SDLK_LEFT 1 true).1 5 (by decide)
      (by decide)).2.1,
   ((key_event_sets_one_keyboard_entry (handleKeyEvent allReleased SDLK_LEFT true)
      SDLK_LEFT 0 false).1 5 (by decide) (by decide)).2.2.1,
   ((key_event_sets_one_keyboard_entry allReleased 113 1 true).2.1 (by decide)).2⟩

/-- C13: after a device poll at a frame boundary (device present, default button
map, deadzone 10000), for every previous table and every snapshot: the device
assertion of each non-directional button equals its polled button level; the
device assertion of Right / Left / Up / Down is non-zero iff the mapped button
(14 / 12 / 13 / 15) is pressed or, respectively, `xaxis > 10000`,
`xaxis < -10000`, `yaxis < -10000`, `yaxis > 10000`.  Hence the device column
depends only on the snapshot, the keyboard column is untouched, and a snapshot
with all buttons released and both axes within the deadzone clears every device
assertion. -/
theorem device_poll_is_level_triggered (snap : JoystickSnapshot) (st : KeyState) :
    (∀ i, i < 12 → i ≠ 4 → i ≠ 5 → i ≠ 6 → i ≠ 7 →
      pollJoystick snap st i 1 = snap.button (emuJoystickMap.getD i 0)) ∧
    (pollJoystick snap st 4 1 ≠ 0 ↔ (snap.button 14 ≠ 0 ∨ snap.xaxis > 10000)) ∧
    (pollJoystick snap st 5 1 ≠ 0 ↔ (snap.button 12 ≠ 0 ∨ snap.xaxis < -10000)) ∧
    (pollJoystick snap st 6 1 ≠ 0 ↔ (snap.button 13 ≠ 0 ∨ snap.yaxis < -10000)) ∧
    (pollJoystick snap st 7 1 ≠ 0 ↔ (snap.button 15 ≠ 0 ∨ snap.yaxis > 10000)) ∧
    (∀ (st2 : KeyState) i, i < 12 → pollJoystick snap st i 1 = pollJoystick snap st2 i 1) ∧
    (∀ i, pollJoystick snap st i 0 = st i 0) ∧
    ((∀ b, snap.button b = 0) → -10000 ≤ snap.xaxis → snap.xaxis ≤ 10000 →
      -10000 ≤ snap.yaxis → snap.yaxis ≤ 10000 →
      ∀ i, i < 12 → pollJoystick snap st i 1 = 0) ∧
    (frameInput (some snap) st).1 = pollJoystick snap st := by
  obtain ⟨k0, _, c0, c1, c2, c3, c4, c5, c6, c7, c8, c9, c10, c11⟩ :=
    pollJoystick_cells snap st
  have hl4 := lor_cBool_ne_zero (snap.button 14) (snap.xaxis > emuJoystickDeadzone)
  have hl5 := lor_cBool_ne_zero (snap.button 12) (snap.xaxis < -emuJoystickDeadzone)
  have hl6 := lor_cBool_ne_zero (snap.button 13) (snap.yaxis < -emuJoystickDeadzone)
  have hl7 := lor_cBool_ne_zero (snap.button 15) (snap.yaxis > emuJoystickDeadzone)
  rw [← c4] at hl4
  rw [← c5] at hl5
  rw [← c6] at hl6
  rw [← c7] at hl7
  simp only [emuJoystickDeadzone] at hl4 hl5 hl6 hl7
  refine ⟨?_, hl4, hl5, hl6, hl7, ?_, k0, ?_, rfl⟩
  · intro i hi h4 h5 h6 h7
    interval_cases i <;> first | contradiction | simp [emuJoystickMap, *]
  · intro st2 i hi
    obtain ⟨_, _, d0, d1, d2, d3, d4, d5, d6, d7, d8, d9, d10, d11⟩ :=
      pollJoystick_cells snap st2
    interval_cases i <;> simp only [*]
  · intro hb hx1 hx2 hy1 hy2 i hi
    have n4 : ¬ (snap.button 14 ≠ 0 ∨ snap.xaxis > 10000) := by
      rw [hb]; intro h; rcases h with h | h
      · exact h rfl
      · omega
    have n5 : ¬ (snap.button 12 ≠ 0 ∨ snap.xaxis < -10000) := by
      rw [hb]; intro h; rcases h with h | h
      · exact h rfl
      · omega
    have n6 : ¬ (snap.button 13 ≠ 0 ∨ snap.yaxis < -10000) := by
      rw [hb]; intro h; rcases h with h | h
      · exact h rfl
      · omega
    have n7 : ¬ (snap.button 15 ≠ 0 ∨ snap.yaxis > 10000) := by
      rw [hb]; intro h; rcases h with h | h
      · exact h rfl
      · omega
    have z4 : pollJoystick snap st 4 1 = 0 := not_not.mp (fun h => n4 (hl4.mp h))
    have z5 : pollJoystick snap st 5 1 = 0 := not_not.mp (fun h => n5 (hl5.mp h))
    have z6 : pollJoystick snap st 6 1 = 0 := not_not.mp (fun h => n6 (hl6.mp h))
    have z7 : pollJoystick snap st 7 1 = 0 := not_not.mp (fun h => n7 (hl7.mp h))
    interval_cases i
    · rw [c0, hb]; rfl
    · rw [c1, hb]; rfl
    · rw [c2, hb]; rfl
    · rw [c3, hb]; rfl
    · exact z4
    · exact z5
    · exact z6
    · exact z7
    · rw [c8, hb]; rfl
    · rw [c9, hb]; rfl
    · rw [c10, hb]; rfl
    · rw [c11, hb]; rfl

/-- C13 on concrete snapshots: button 14 pressed with the x axis exactly at the
deadzone and the y axis at -10001 asserts Right and Up only; a snapshot at rest
clears the device assertion that the previous poll had set. -/
theorem device_poll_is_level_triggered_witness :
    pollJoystick rightAndUp allReleased 4 1 ≠ 0 ∧
    pollJoystick rightAndUp allReleased 6 1 ≠ 0 ∧
    ¬ (pollJoystick rightAndUp allReleased 5 1 ≠ 0) ∧
    pollJoystick atRest (pollJoystick rightAndUp allReleased) 4 1 = 0 :=
  ⟨(device_poll_is_level_triggered rightAndUp allReleased).2.1.mpr (Or.inl (by decide)),
   (device_poll_is_level_triggered rightAndUp allReleased).2.2.2.1.mpr (Or.inr (by decide)),
   fun h => absurd ((device_poll_is_level_triggered rightAndUp allReleased).2.2.1.mp h)
     (by decide),
   (device_poll_is_level_triggered atRest (pollJoystick rightAndUp allReleased)).2.2.2.2.2.2.2.1
     (fun _ => rfl) (by decide) (by decide) (by decide) (by decide) 4 (by decide)⟩

/-! ## Lemmas on the frame pacer -/

/-- The FPS step touches only `emuFPS` and `lastTime`. -/
theorem fpsStep_fields (currentTime : Int) (s : Emu) :
    (fpsStep currentTime s).audio = s.audio ∧
    (fpsStep currentTime s).save = s.save ∧
    (fpsStep currentTime s).showAudioDebug = s.showAudioDebug ∧
    (fpsStep currentTime s).frameDrawn = s.frameDrawn ∧
    (fpsStep currentTime s).frameCount = s.frameCount := by
  unfold fpsStep updateFPS
  split <;> exact ⟨rfl, rfl, rfl, rfl, rfl⟩

/-- The autosave step touches only the save globals. -/
theorem autosaveStep_fields (fopenOk : Bool) (s : Emu) :
    (autosaveStep fopenOk s).audio = s.audio ∧
    (autosaveStep fopenOk s).showAudioDebug = s.showAudioDebug ∧
    (autosaveStep fopenOk s).frameDrawn = s.frameDrawn ∧
    (autosaveStep fopenOk s).frameCount = s.frameCount ∧
    (autosaveStep fopenOk s).emuFPS = s.emuFPS ∧
    (autosaveStep fopenOk s).lastTime = s.lastTime := by
  unfold autosaveStep
  split
  · split
    · simp only []
      split <;> exact ⟨rfl, rfl, rfl, rfl, rfl, rfl⟩
    · exact ⟨rfl, rfl, rfl, rfl, rfl, rfl⟩
  · exact ⟨rfl, rfl, rfl, rfl, rfl, rfl⟩

/-- The save globals after the autosave step. -/
theorem autosaveStep_save (fopenOk : Bool) (s : Emu) :
    (autosaveStep fopenOk s).save
      = if s.frameCount % 60 = 0 ∧ s.audio.turboMode = false then
          if (emuCheckSave fopenOk s.save).osdShowCount > 0 then
            { emuCheckSave fopenOk s.save with
                osdShowCount := (emuCheckSave fopenOk s.save).osdShowCount - 1 }
          else emuCheckSave fopenOk s.save
        else s.save := by
  unfold autosaveStep
  by_cases h60 : s.frameCount % 60 = 0
  · cases ht : s.audio.turboMode
    · simp only [h60, if_true, Bool.not_false, true_and]
      split <;> rfl
    · simp [h60]
  · simp [h60]

/-- The frame bookkeeping of `systemDrawScreen`. -/
theorem systemDrawScreen_frame (currentTime : Int) (fopenOk : Bool) (s : Emu) :
    (systemDrawScreen currentTime fopenOk s).1.frameCount = (s.frameCount + 1) % 4294967296 ∧
    (systemDrawScreen currentTime fopenOk s).1.frameDrawn = true ∧
    (systemDrawScreen currentTime fopenOk s).1.audio = s.audio ∧
    (systemDrawScreen currentTime fopenOk s).1.showAudioDebug = s.showAudioDebug ∧
    (systemDrawScreen currentTime fopenOk s).1.emuFPS
      = (if (s.frameCount + 1) % 4294967296 % 120 = 0 then
          120000 / (if (currentTime - s.lastTime) % 4294967296 ≤ 0 then 1
                    else (currentTime - s.lastTime) % 4294967296)
        else s.emuFPS) ∧
    (systemDrawScreen currentTime fopenOk s).1.lastTime
      = (if (s.frameCount + 1) % 4294967296 % 120 = 0 then currentTime else s.lastTime) := by
  obtain ⟨a1, a2, a3, a4, a5, a6⟩ :=
    autosaveStep_fields fopenOk (fpsStep currentTime (countFrame s))
  obtain ⟨b1, _, b3, b4, b5⟩ := fpsStep_fields currentTime (countFrame s)
  simp only [systemDrawScreen]
  refine ⟨a4.trans b5, a3.trans b4, a1.trans b1, a2.trans b3, ?_, ?_⟩
  · rw [a5]
    unfold fpsStep updateFPS countFrame
    simp only []
    split <;> rfl
  · rw [a6]
    unfold fpsStep updateFPS countFrame
    simp only []
    split <;> rfl

/-- The save globals after `systemDrawScreen`. -/
theorem systemDrawScreen_save (currentTime : Int) (fopenOk : Bool) (s : Emu) :
    (systemDrawScreen currentTime fopenOk s).1.save
      = if (s.frameCount + 1) % 4294967296 % 60 = 0 ∧ s.audio.turboMode = false then
          if (emuCheckSave fopenOk s.save).osdShowCount > 0 then
            { emuCheckSave fopenOk s.save with
                osdShowCount := (emuCheckSave fopenOk s.save).osdShowCount - 1 }
          else emuCheckSave fopenOk s.save
        else s.save := by
  obtain ⟨b1, b2, _, _, b5⟩ := fpsStep_fields currentTime (countFrame s)
  simp only [systemDrawScreen]
  rw [autosaveStep_save, b1, b2, b5]
  rfl

/-- Whether `systemDrawScreen` presents the frame, and with what overlay. -/
theorem systemDrawScreen_presented (currentTime : Int) (fopenOk : Bool) (s : Emu) :
    (systemDrawScreen currentTime fopenOk s).2
      = if s.audio.turboMode = true ∧ (s.frameCount + 1) % 4294967296 % 20 ≠ 0 then
          Frame.skipped
        else Frame.presented (drawOverlay (systemDrawScreen currentTime fopenOk s).1) := by
  obtain ⟨f1, _, f3, _, _, _⟩ := systemDrawScreen_frame currentTime fopenOk s
  show presentStep (systemDrawScreen currentTime fopenOk s).1 = _
  unfold presentStep
  rw [f1, f3]
  cases ht : s.audio.turboMode
  · simp
  · by_cases h20 : (s.frameCount + 1) % 4294967296 % 20 = 0 <;> simp [h20]

/-! ## The claims on the frame pacer -/

/-- C14, as stated, fails for a negative elapsed delta: on the 120th frame, with
the previous tick value `4294967295` and the current one `4` (the counter has
wrapped), `current - previous` is negative, yet the delta is not floored at 1:
the unsigned subtraction gives 5 and FPS is 24000, not 120000. -/
theorem negative_delta_counterexample :
    (beforeTickWrap.frameCount + 1) % 4294967296 % 120 = 0 ∧
    (4 : Int) - beforeTickWrap.lastTime ≤ 0 ∧
    (systemDrawScreen 4 true beforeTickWrap).1.emuFPS = 24000 ∧
    ¬ ((systemDrawScreen 4 true beforeTickWrap).1.emuFPS
        = 120000 / max ((4 : Int) - beforeTickWrap.lastTime) 1) := by
  decide

/-- C14, amended: at every completed frame whose incremented frame count is a
multiple of 120, for every pair of previous and current tick values, FPS is
recomputed as `floor(120000 / d)` where `d` is the elapsed delta
`(current - previous) mod 2^32` (an unsigned 32-bit subtraction) floored at 1: a
zero elapsed delta is treated as 1 time unit, so the divisor is never zero and
FPS is 120000 in that case; `lastTime` becomes the current tick value.  When
`previous ≤ current` the delta is the plain difference. -/
theorem fps_recomputed_every_120_frames (currentTime : Int) (fopenOk : Bool) (s : Emu)
    (h120 : (s.frameCount + 1) % 4294967296 % 120 = 0) :
    (systemDrawScreen currentTime fopenOk s).1.emuFPS
      = 120000 / max ((currentTime - s.lastTime) % 4294967296) 1 ∧
    1 ≤ max ((currentTime - s.lastTime) % 4294967296) 1 ∧
    (systemDrawScreen currentTime fopenOk s).1.lastTime = currentTime ∧
    ((currentTime - s.lastTime) % 4294967296 = 0 →
      (systemDrawScreen currentTime fopenOk s).1.emuFPS = 120000) ∧
    (0 ≤ s.lastTime → s.lastTime ≤ currentTime → currentTime < 4294967296 →
      (systemDrawScreen currentTime fopenOk s).1.emuFPS
        = 120000 / max (currentTime - s.lastTime) 1) := by
  obtain ⟨_, _, _, _, f5, f6⟩ := systemDrawScreen_frame currentTime fopenOk s
  rw [if_pos h120] at f5 f6
  have hnn : 0 ≤ (currentTime - s.lastTime) % 4294967296 :=
    Int.emod_nonneg _ (by decide)
  have hmax : (if (currentTime - s.lastTime) % 4294967296 ≤ 0 then (1 : Int)
      else (currentTime - s.lastTime) % 4294967296)
      = max ((currentTime - s.lastTime) % 4294967296) 1 := by
    split <;> omega
  rw [hmax] at f5
  refine ⟨f5, by omega, f6, ?_, ?_⟩
  · intro h0
    rw [f5, h0]
    decide
  · intro h1 h2 h3
    rw [f5, Int.emod_eq_of_lt (by omega) (by omega)]

/-- C14, amended, on the scenario of the specification: an elapsed delta of 0 on
the 120th frame gives FPS 120000. -/
theorem fps_recomputed_every_120_frames_witness :
    (pacedState.frameCount + 1) % 4294967296 % 120 = 0 ∧
    (systemDrawScreen 1000 true pacedState).1.emuFPS = 120000 :=
  ⟨by decide,
   (fps_recomputed_every_120_frames 1000 true pacedState (by decide)).2.2.2.1 (by decide)⟩

/-- C15: on every presented frame the overlay drawn is decided by strict
precedence over the countdown, the debug flag and the accelerated flag, as they
are when the overlay is drawn: if the countdown is `> 0` the message text alone
is shown; otherwise, if the debug overlay is enabled, FPS and the buffered-audio
length; otherwise, if accelerated mode is active, FPS alone; otherwise nothing.
In particular a message whose countdown is 0 is never drawn. -/
theorem overlay_precedence (currentTime : Int) (fopenOk : Bool) (s : Emu)
    (overlay : Option Overlay)
    (hshown : (systemDrawScreen currentTime fopenOk s).2 = Frame.presented overlay) :
    (0 < (systemDrawScreen currentTime fopenOk s).1.save.osdShowCount →
      overlay = some (Overlay.message (systemDrawScreen currentTime fopenOk s).1.save.osdText)) ∧
    ((systemDrawScreen currentTime fopenOk s).1.save.osdShowCount ≤ 0 →
      s.showAudioDebug = true →
      overlay = some (Overlay.fpsAndFifo (systemDrawScreen currentTime fopenOk s).1.emuFPS
        s.audio.audioFifoLen)) ∧
    ((systemDrawScreen currentTime fopenOk s).1.save.osdShowCount ≤ 0 →
      s.showAudioDebug = false → s.audio.turboMode = true →
      overlay = some (Overlay.fpsOnly (systemDrawScreen currentTime fopenOk s).1.emuFPS)) ∧
    ((systemDrawScreen currentTime fopenOk s).1.save.osdShowCount ≤ 0 →
      s.showAudioDebug = false → s.audio.turboMode = false → overlay = none) ∧
    ((systemDrawScreen currentTime fopenOk s).1.save.osdShowCount ≤ 0 →
      ∀ text, overlay ≠ some (Overlay.message text)) := by
  obtain ⟨_, _, f3, f4, _, _⟩ := systemDrawScreen_frame currentTime fopenOk s
  have hp := systemDrawScreen_presented currentTime fopenOk s
  rw [hshown] at hp
  split at hp
  · exact absurd hp (by simp)
  · have ho : overlay = drawOverlay (systemDrawScreen currentTime fopenOk s).1 := by
      injection hp
    rw [ho]
    unfold drawOverlay
    rw [f3, f4]
    refine ⟨?_, ?_, ?_, ?_, ?_⟩
    · intro h; rw [if_pos h]
    · intro h hd
      rw [if_neg (by omega), hd]; rfl
    · intro h hd ht
      rw [if_neg (by omega), hd, ht]; rfl
    · intro h hd ht
      rw [if_neg (by omega), hd, ht]; rfl
    · intro h text
      rw [if_neg (by omega)]
      cases s.showAudioDebug <;> cases s.audio.turboMode <;> simp

/-- C15 on a concrete frame: the 120th frame of `pacedState`, with no message
pending and the debug overlay on, shows FPS and buffer length. -/
theorem overlay_precedence_witness :
    (systemDrawScreen 1000 true pacedState).2
      = Frame.presented (some (Overlay.fpsAndFifo 120000 0)) ∧
    some (Overlay.fpsAndFifo 120000 0)
      = some (Overlay.fpsAndFifo (systemDrawScreen 1000 true pacedState).1.emuFPS
          pacedState.audio.audioFifoLen) :=
  ⟨by decide,
   (overlay_precedence 1000 true pacedState (some (Overlay.fpsAndFifo 120000 0))
     (by decide)).2.1 (by decide) rfl⟩

/-- C16: for every state, when a frame completes, the frame counter is
incremented (modulo `2^32`) and the 120-frame FPS recomputation is applied
whatever the mode; the frame is presented, with the overlay of the new state, if
and only if accelerated mode is off or the incremented frame count is a multiple
of 20. -/
theorem frame_counted_and_presented (currentTime : Int) (fopenOk : Bool) (s : Emu) :
    (systemDrawScreen currentTime fopenOk s).1.frameCount = (s.frameCount + 1) % 4294967296 ∧
    (s.frameCount + 1 < 4294967296 →
      (systemDrawScreen currentTime fopenOk s).1.frameCount = s.frameCount + 1) ∧
    (systemDrawScreen currentTime fopenOk s).1.frameDrawn = true ∧
    ((s.frameCount + 1) % 4294967296 % 120 = 0 →
      (systemDrawScreen currentTime fopenOk s).1.emuFPS
        = 120000 / max ((currentTime - s.lastTime) % 4294967296) 1 ∧
      (systemDrawScreen currentTime fopenOk s).1.lastTime = currentTime) ∧
    ((s.frameCount + 1) % 4294967296 % 120 ≠ 0 →
      (systemDrawScreen currentTime fopenOk s).1.emuFPS = s.emuFPS ∧
      (systemDrawScreen currentTime fopenOk s).1.lastTime = s.lastTime) ∧
    (∀ turbo : Bool,
      (systemDrawScreen currentTime fopenOk
          { s with audio := { s.audio with turboMode := turbo } }).1.frameCount
        = (systemDrawScreen currentTime fopenOk s).1.frameCount ∧
      (systemDrawScreen currentTime fopenOk
          { s with audio := { s.audio with turboMode := turbo } }).1.emuFPS
        = (systemDrawScreen currentTime fopenOk s).1.emuFPS ∧
      (systemDrawScreen currentTime fopenOk
          { s with audio := { s.audio with turboMode := turbo } }).1.lastTime
        = (systemDrawScreen currentTime fopenOk s).1.lastTime) ∧
    ((systemDrawScreen currentTime fopenOk s).2
        = Frame.presented (drawOverlay (systemDrawScreen currentTime fopenOk s).1) ↔
      (s.audio.turboMode = false ∨ (s.frameCount + 1) % 4294967296 % 20 = 0)) ∧
    ((systemDrawScreen currentTime fopenOk s).2 = Frame.skipped ↔
      ¬ (s.audio.turboMode = false ∨ (s.frameCount + 1) % 4294967296 % 20 = 0)) := by
  obtain ⟨f1, f2, _, _, f5, f6⟩ := systemDrawScreen_frame currentTime fopenOk s
  have hp := systemDrawScreen_presented currentTime fopenOk s
  have hnn : 0 ≤ (currentTime - s.lastTime) % 4294967296 :=
    Int.emod_nonneg _ (by decide)
  have hmax : (if (currentTime - s.lastTime) % 4294967296 ≤ 0 then (1 : Int)
      else (currentTime - s.lastTime) % 4294967296)
      = max ((currentTime - s.lastTime) % 4294967296) 1 := by
    split <;> omega
  refine ⟨f1, ?_, f2, ?_, ?_, ?_, ?_, ?_⟩
  · intro h; rw [f1, Nat.mod_eq_of_lt h]
  · intro h; rw [f5, f6, if_pos h, if_pos h, hmax]; exact ⟨rfl, rfl⟩
  · intro h; rw [f5, f6, if_neg h, if_neg h]; exact ⟨rfl, rfl⟩
  · intro turbo
    obtain ⟨g1, _, _, _, g5, g6⟩ := systemDrawScreen_frame currentTime fopenOk
      { s with audio := { s.audio with turboMode := turbo } }
    rw [f1, f5, f6, g1, g5, g6]
    exact ⟨rfl, rfl, rfl⟩
  · rw [hp]
    cases ht : s.audio.turboMode
    · simp
    · by_cases h20 : (s.frameCount + 1) % 4294967296 % 20 = 0 <;> simp [h20]
  · rw [hp]
    cases ht : s.audio.turboMode
    · simp
    · by_cases h20 : (s.frameCount + 1) % 4294967296 % 20 = 0 <;> simp [h20]

/-- C16 on concrete frames: in accelerated mode the 120th frame is presented and
the 119th is skipped, the counter advancing in both. -/
theorem frame_counted_and_presented_witness :
    (systemDrawScreen 1000 true
        { pacedState with audio := { pacedState.audio with turboMode := true } }).2
      = Frame.presented (drawOverlay (systemDrawScreen 1000 true
          { pacedState with audio := { pacedState.audio with turboMode := true } }).1) ∧
    (systemDrawScreen 1000 true
        { pacedState with audio := { pacedState.audio with turboMode := true },
                          frameCount := 118 }).2 = Frame.skipped ∧
    (systemDrawScreen 1000 true
        { pacedState with audio := { pacedState.audio with turboMode := true },
                          frameCount := 118 }).1.frameCount = 119 :=
  ⟨(frame_counted_and_presented 1000 true
      { pacedState with audio := { pacedState.audio with turboMode := true } }).2.2.2.2.2.2.1.mpr
      (Or.inr (by decide)),
   (frame_counted_and_presented 1000 true
      { pacedState with audio := { pacedState.audio with turboMode := true },
                        frameCount := 118 }).2.2.2.2.2.2.2.mpr (by decide),
   (frame_counted_and_presented 1000 true
      { pacedState with audio := { pacedState.audio with turboMode := true },
                        frameCount := 118 }).2.1 (by decide)⟩

set_option maxRecDepth 100000 in
theorem save_failed_text : ("Save failed!" : String).take 63 = "Save failed!" := by decide

set_option maxRecDepth 100000 in
theorem auto_saved_text : ("Auto saved." : String).take 63 = "Auto saved." := by decide

/-- The overlay request made by the flush routine: none when no path is set,
`Save failed!` for 10 ticks when the file does not open, `Auto saved.` for 3
ticks when it does. -/
theorem emuUpdateSaveFile_osd (fopenOk : Bool) (s : SaveState) :
    (s.savFilePath.length = 0 →
      (emuUpdateSaveFile fopenOk s).1.osdShowCount = s.osdShowCount ∧
      (emuUpdateSaveFile fopenOk s).1.osdText = s.osdText) ∧
    (s.savFilePath.length ≠ 0 → fopenOk = false →
      (emuUpdateSaveFile fopenOk s).1.osdShowCount = 10 ∧
      (emuUpdateSaveFile fopenOk s).1.osdText = "Save failed!" ∧
      (emuUpdateSaveFile fopenOk s).2 = -1) ∧
    (s.savFilePath.length ≠ 0 → fopenOk = true →
      (emuUpdateSaveFile fopenOk s).1.osdShowCount = 3 ∧
      (emuUpdateSaveFile fopenOk s).1.osdText = "Auto saved.") := by
  have e1 := save_failed_text
  have e2 := auto_saved_text
  unfold emuUpdateSaveFile emuShowOsd
  by_cases hp : s.savFilePath.length = 0 <;> cases fopenOk <;> simp [hp, e1, e2]

/-- A check that raises no save message (no flush, or no path set) leaves the
overlay slot as it was. -/
theorem emuCheckSave_no_message (fopenOk : Bool) (s : SaveState)
    (h : (emuCheckSave fopenOk s).flushCalls = s.flushCalls ∨ s.savFilePath.length = 0) :
    (emuCheckSave fopenOk s).osdShowCount = s.osdShowCount ∧
    (emuCheckSave fopenOk s).osdText = s.osdText := by
  cases hen : s.autoSaveEnabled with
  | false => rw [emuCheckSave_disabled _ _ hen]; exact ⟨rfl, rfl⟩
  | true =>
    by_cases heq : s.libretro_save_buf = s.lastSaveBuf
    · cases hprev : s.prevSaveChanged with
      | false => rw [emuCheckSave_quiet _ _ hen heq hprev]; exact ⟨rfl, rfl⟩
      | true =>
        rw [emuCheckSave_settled _ _ hen heq hprev] at h ⊢
        rcases h with h | h
        · have := (emuUpdateSaveFile_frame fopenOk s).2.2.2.2.2
          simp only [] at h
          omega
        · exact (emuUpdateSaveFile_osd fopenOk s).1 h
    · rw [emuCheckSave_changed _ _ hen heq]; exact ⟨rfl, rfl⟩

/-- The countdown after a check is the old one, 10 or 3. -/
theorem emuCheckSave_osd_cases (fopenOk : Bool) (s : SaveState) :
    (emuCheckSave fopenOk s).osdShowCount = s.osdShowCount ∨
    (emuCheckSave fopenOk s).osdShowCount = 10 ∨
    (emuCheckSave fopenOk s).osdShowCount = 3 := by
  by_cases hf : (emuCheckSave fopenOk s).flushCalls = s.flushCalls ∨ s.savFilePath.length = 0
  · exact Or.inl (emuCheckSave_no_message fopenOk s hf).1
  · have hp : s.savFilePath.length ≠ 0 := fun h => hf (Or.inr h)
    cases hen : s.autoSaveEnabled with
    | false => rw [emuCheckSave_disabled _ _ hen]; exact Or.inl rfl
    | true =>
      by_cases heq : s.libretro_save_buf = s.lastSaveBuf
      · cases hprev : s.prevSaveChanged with
        | false => rw [emuCheckSave_quiet _ _ hen heq hprev]; exact Or.inl rfl
        | true =>
          rw [emuCheckSave_settled _ _ hen heq hprev]
          cases fopenOk with
          | false => exact Or.inr (Or.inl ((emuUpdateSaveFile_osd false s).2.1 hp rfl).1)
          | true => exact Or.inr (Or.inr ((emuUpdateSaveFile_osd true s).2.2 hp rfl).1)
      · rw [emuCheckSave_changed _ _ hen heq]; exact Or.inl rfl

/-- C19: overlay countdown step.  On each completed frame the countdown
`osdShowCount` changes only if the incremented frame count is a multiple of 60
and accelerated mode is off; in that case, provided no autosave message is
raised in that frame (the check makes no flush, or no save path is set), a
positive countdown decreases by exactly one and a zero countdown stays zero.
Consequently a countdown that is not negative stays so, and the countdown is
never decremented while accelerated. -/
theorem countdown_step (currentTime : Int) (fopenOk : Bool) (s : Emu) :
    (¬ ((s.frameCount + 1) % 4294967296 % 60 = 0 ∧ s.audio.turboMode = false) →
      (systemDrawScreen currentTime fopenOk s).1.save = s.save) ∧
    ((s.frameCount + 1) % 4294967296 % 60 = 0 → s.audio.turboMode = false →
      ((emuCheckSave fopenOk s.save).flushCalls = s.save.flushCalls ∨
        s.save.savFilePath.length = 0) →
      (0 < s.save.osdShowCount →
        (systemDrawScreen currentTime fopenOk s).1.save.osdShowCount
          = s.save.osdShowCount - 1) ∧
      (s.save.osdShowCount = 0 →
        (systemDrawScreen currentTime fopenOk s).1.save.osdShowCount = 0) ∧
      (systemDrawScreen currentTime fopenOk s).1.save.osdText = s.save.osdText) ∧
    (0 ≤ s.save.osdShowCount →
      0 ≤ (systemDrawScreen currentTime fopenOk s).1.save.osdShowCount) ∧
    (s.audio.turboMode = true →
      (systemDrawScreen currentTime fopenOk s).1.save.osdShowCount = s.save.osdShowCount) := by
  have hs := systemDrawScreen_save currentTime fopenOk s
  refine ⟨?_, ?_, ?_, ?_⟩
  · intro h
    rw [hs, if_neg h]
  · intro h60 ht hq
    obtain ⟨q1, q2⟩ := emuCheckSave_no_message fopenOk s.save hq
    rw [hs, if_pos ⟨h60, ht⟩]
    refine ⟨?_, ?_, ?_⟩
    · intro hpos
      rw [if_pos (by rw [q1]; exact hpos)]
      simp only []
      rw [q1]
    · intro hz
      rw [if_neg (by rw [q1]; omega)]
      rw [q1, hz]
    · split
      · exact q2
      · exact q2
  · intro hnn
    rw [hs]
    have hc := emuCheckSave_osd_cases fopenOk s.save
    split
    · split
      · simp only []; omega
      · omega
    · exact hnn
  · intro ht
    rw [hs, if_neg (by simp [ht])]

/-- C19 on concrete frames: with a countdown of 3 the 120th frame of normal play
leaves 2; in accelerated mode it leaves 3. -/
theorem countdown_step_witness :
    (systemDrawScreen 1000 true
      { pacedState with save := { loadedState with osdShowCount := 3 } }).1.save.osdShowCount
      = 2 ∧
    (systemDrawScreen 1000 true
      { pacedState with save := { loadedState with osdShowCount := 3 },
                        audio := { pacedState.audio with turboMode := true } }).1.save.osdShowCount
      = 3 :=
  ⟨((countdown_step 1000 true
      { pacedState with save := { loadedState with osdShowCount := 3 } }).2.1
      (by decide) (by decide) (by decide)).1 (by decide),
   (countdown_step 1000 true
      { pacedState with save := { loadedState with osdShowCount := 3 },
                        audio := { pacedState.audio with turboMode := true } }).2.2.2
      (by decide)⟩

/-- Every chunk notification sets `audioSent`. -/
theorem push_sets_audioSent (s : AudioState) (finalWave : List Int) :
    (systemOnWriteDataToSoundBuffer s finalWave).audioSent = true := by
  by_cases hacc : s.turboMode = false ∧ s.audioFifoLen + (finalWave.length : Int) < AUDIO_FIFO_CAP
  · rw [push_accepted s finalWave hacc.1 hacc.2, (writeLoop_frame _ _ _).2.2]
  · rw [push_rejected]
    by_cases ht : s.turboMode = true
    · exact Or.inl ht
    · right
      have hf : s.turboMode = false := by simpa using ht
      exact not_lt.mp (fun h => hacc ⟨hf, h⟩)

/-- The loop of `emuRunAudio` returns at once when `audioSent` is set. -/
theorem emuRunAudioLoop_sent (s : AudioState) (steps : List EngineStep)
    (h : s.audioSent = true) : emuRunAudioLoop s steps = some (s, steps) := by
  cases steps <;> simp [emuRunAudioLoop, h]

/-- The loop of `emuRunAudio` passes over calls of `CPULoop` that produce no
chunk. -/
theorem emuRunAudioLoop_idle (n : Nat) (s : AudioState) (steps : List EngineStep)
    (h : s.audioSent = false) :
    emuRunAudioLoop s (List.replicate n [] ++ steps) = emuRunAudioLoop s steps := by
  induction n with
  | zero => rfl
  | succ n ih =>
    rw [List.replicate_succ, List.cons_append]
    simp only [emuRunAudioLoop, h, Bool.false_eq_true, if_false]
    exact ih

/-- C17: for every buffer state and every audio chunk, when accelerated mode is
active the chunk notification performs no push (head, length and all storage
cells unchanged) while `audioSent` is still set, so that `emuRunAudio` returns
after the first call of `CPULoop` that produces a chunk, whatever the mode; when
accelerated mode is off the chunk goes through the ring-buffer push: it is
appended, truncated to an even count, if `length + count < C`, and dropped
otherwise. -/
theorem turbo_suppresses_audio_push (s : AudioState) (finalWave : List Int)
    (idle : Nat) (rest : List EngineStep) :
    (s.turboMode = true →
      (systemOnWriteDataToSoundBuffer s finalWave).audioFifoHead = s.audioFifoHead ∧
      (systemOnWriteDataToSoundBuffer s finalWave).audioFifoLen = s.audioFifoLen ∧
      (systemOnWriteDataToSoundBuffer s finalWave).audioFifo = s.audioFifo) ∧
    (systemOnWriteDataToSoundBuffer s finalWave).audioSent = true ∧
    emuRunAudio s (List.replicate idle [] ++ [finalWave] :: rest)
      = some (systemOnWriteDataToSoundBuffer { s with audioSent := false } finalWave, rest) ∧
    (s.turboMode = false → FifoInv s →
      s.audioFifoLen + (finalWave.length : Int) < AUDIO_FIFO_CAP →
      contents (systemOnWriteDataToSoundBuffer s finalWave)
        = contents s ++ finalWave.take ((finalWave.length / 2) * 2)) ∧
    (s.turboMode = false → s.audioFifoLen + (finalWave.length : Int) ≥ AUDIO_FIFO_CAP →
      contents (systemOnWriteDataToSoundBuffer s finalWave) = contents s) := by
  refine ⟨?_, push_sets_audioSent s finalWave, ?_, ?_, ?_⟩
  · intro ht
    rw [push_rejected s finalWave (Or.inl ht)]
    exact ⟨rfl, rfl, rfl⟩
  · unfold emuRunAudio
    rw [emuRunAudioLoop_idle idle _ _ rfl]
    simp only [emuRunAudioLoop, Bool.false_eq_true, if_false]
    exact emuRunAudioLoop_sent _ rest (push_sets_audioSent _ finalWave)
  · intro ht hinv hfit
    exact (push_accepted_spec s finalWave hinv ht hfit).2.2
  · intro _ hover
    rw [push_rejected s finalWave (Or.inr hover)]
    rfl

/-- C17 on a concrete buffer: in accelerated mode the chunk `1, 2` leaves the two
buffered samples alone, and `emuRunAudio` returns after the call of `CPULoop`
that produced it. -/
theorem turbo_suppresses_audio_push_witness :
    contents (systemOnWriteDataToSoundBuffer { twoSamples with turboMode := true } [1, 2])
      = [7, 9] ∧
    (systemOnWriteDataToSoundBuffer { twoSamples with turboMode := true } [1, 2]).audioFifoLen
      = { twoSamples with turboMode := true }.audioFifoLen ∧
    emuRunAudio { twoSamples with turboMode := true }
        (List.replicate 2 [] ++ [[1, 2]] :: [[[3, 4]]])
      = some (systemOnWriteDataToSoundBuffer
          { twoSamples with turboMode := true, audioSent := false } [1, 2], [[[3, 4]]]) :=
  ⟨by decide,
   ((turbo_suppresses_audio_push { twoSamples with turboMode := true } [1, 2] 2
      [[[3, 4]]]).1 rfl).2.1,
   (turbo_suppresses_audio_push { twoSamples with turboMode := true } [1, 2] 2
      [[[3, 4]]]).2.2.1⟩

/-- From any state with autosave enabled, `k ≥ 1` checks that each find the live
region different followed by `m ≥ 1` unmodified checks flush once, at check
`k + 1`. -/
theorem stabilisation_trace (s : SaveState) (pre post : List CheckStep)
    (hen : s.autoSaveEnabled = true) (hk : 1 ≤ pre.length) (hm : 1 ≤ post.length)
    (hdiff : DiffersAtEvery s pre) (hun : Unmodified post) :
    flushTrace s (pre ++ post)
      = List.replicate pre.length 0 ++ 1 :: List.replicate (post.length - 1) 0 := by
  obtain ⟨t1, _, _⟩ := differs_run_no_flush pre s hdiff
  have hne : pre ≠ [] := by
    intro h; rw [h] at hk; exact absurd hk (by decide)
  obtain ⟨e1, p1, q1⟩ := differs_run_state pre s hen hne hdiff
  cases post with
  | nil => exact absurd hm (by decide)
  | cons c rest =>
    have hw : c.write = none := hun c (List.mem_cons_self _ _)
    have hun2 : Unmodified rest := fun d hd => hun d (List.mem_cons_of_mem _ hd)
    obtain ⟨a, b, c2, d⟩ := settle_check c (runChecks s pre) e1 q1.symm p1 hw
    obtain ⟨t2, _⟩ := quiet_run_no_flush rest (c.run (runChecks s pre)) b c2 d hun2
    rw [flushTrace_append, t1]
    simp only [flushTrace, t2, a, List.length_cons, Nat.add_sub_cancel, Nat.add_sub_cancel_left]

/-- C18: when a debounce-triggered flush fails because the save file cannot be
opened (autosave enabled, a path set, the region unmodified since a changed
check, `fopen` failing), the flush is attempted once and writes nothing, and the
failure is reported through the overlay: the message slot holds `Save failed!`
with countdown 10, and a frame that makes this check presents that message.  The
flush is not retried: over every following run of checks in which the region
stays unmodified no flush is attempted, whether the file would open or not; a
flush is attempted again only after the region has changed (for `k ≥ 1` checks)
and then stabilised, at the first unmodified check. -/
theorem failed_flush_reported_and_not_retried (s : SaveState)
    (hen : s.autoSaveEnabled = true) (hpath : s.savFilePath.length ≠ 0)
    (heq : s.libretro_save_buf = s.lastSaveBuf) (hprev : s.prevSaveChanged = true) :
    (emuCheckSave false s).flushCalls = s.flushCalls + 1 ∧
    (emuCheckSave false s).savFile = s.savFile ∧
    (emuCheckSave false s).osdText = "Save failed!" ∧
    (emuCheckSave false s).osdShowCount = 10 ∧
    (∀ (e : Emu) (currentTime : Int), e.save = s →
      (e.frameCount + 1) % 4294967296 % 60 = 0 → e.audio.turboMode = false →
      (systemDrawScreen currentTime false e).2
        = Frame.presented (some (Overlay.message "Save failed!")) ∧
      0 < (systemDrawScreen currentTime false e).1.save.osdShowCount) ∧
    (∀ quiet : List CheckStep, Unmodified quiet →
      flushTrace (emuCheckSave false s) quiet = List.replicate quiet.length 0) ∧
    (∀ quiet pre post : List CheckStep, Unmodified quiet →
      1 ≤ pre.length → 1 ≤ post.length →
      DiffersAtEvery (emuCheckSave false s) pre → Unmodified post →
      flushTrace (emuCheckSave false s) (quiet ++ (pre ++ post))
        = List.replicate quiet.length 0
          ++ (List.replicate pre.length 0 ++ 1 :: List.replicate (post.length - 1) 0)) := by
  obtain ⟨f1, f2, _, f4, _, f6⟩ := emuUpdateSaveFile_frame false s
  obtain ⟨o1, o2, _⟩ := (emuUpdateSaveFile_osd false s).2.1 hpath rfl
  have hfile := (emuUpdateSaveFile_file false s).2.2 (Or.inr rfl)
  have hrun := emuCheckSave_settled false s hen heq hprev
  have hen1 : (emuCheckSave false s).autoSaveEnabled = true := by rw [hrun]; exact f4.trans hen
  have heq1 : (emuCheckSave false s).libretro_save_buf = (emuCheckSave false s).lastSaveBuf := by
    rw [hrun]; simp only []; rw [f1, f2]; exact heq
  have hprev1 : (emuCheckSave false s).prevSaveChanged = false := by rw [hrun]
  have hosd : (emuCheckSave false s).osdShowCount = 10 := by rw [hrun]; exact o1
  have htext : (emuCheckSave false s).osdText = "Save failed!" := by rw [hrun]; exact o2
  refine ⟨by rw [hrun]; exact f6, by rw [hrun]; exact hfile, htext, hosd, ?_, ?_, ?_⟩
  · intro e currentTime he h60 ht
    have hs := systemDrawScreen_save currentTime false e
    rw [if_pos ⟨h60, ht⟩, he, if_pos (by rw [hosd]; decide)] at hs
    have hp := systemDrawScreen_presented currentTime false e
    rw [if_neg (by simp [ht])] at hp
    have hc : (systemDrawScreen currentTime false e).1.save.osdShowCount = 9 := by
      rw [hs]; simp only []; rw [hosd]; rfl
    have hx : (systemDrawScreen currentTime false e).1.save.osdText = "Save failed!" := by
      rw [hs]; exact htext
    refine ⟨?_, by rw [hc]; decide⟩
    rw [hp]
    unfold drawOverlay
    rw [if_pos (by rw [hc]; decide), hx]
  · intro quiet hq
    exact (quiet_run_no_flush quiet _ hen1 heq1 hprev1 hq).1
  · intro quiet pre post hq hk hm hdiff hun
    obtain ⟨t, r⟩ := quiet_run_no_flush quiet _ hen1 heq1 hprev1 hq
    rw [flushTrace_append, t, r]
    rw [stabilisation_trace _ pre post hen1 hk hm hdiff hun]

/-- C18 on a concrete run: from `settlingState` the check with `fopen` failing
attempts one flush and raises the message; two further unmodified checks, a
change and a stabilisation then flush once more, at the last check only. -/
theorem failed_flush_reported_and_not_retried_witness :
    (emuCheckSave false settlingState).flushCalls = 1 ∧
    (emuCheckSave false settlingState).osdShowCount = 10 ∧
    flushTrace (emuCheckSave false settlingState)
      ([⟨none, true⟩, ⟨none, true⟩] ++ ([⟨some [6], true⟩] ++ [⟨none, true⟩]))
      = [0, 0, 0, 1] :=
  ⟨(failed_flush_reported_and_not_retried settlingState rfl (by decide) rfl rfl).1,
   (failed_flush_reported_and_not_retried settlingState rfl (by decide) rfl rfl).2.2.2.1,
   (failed_flush_reported_and_not_retried settlingState rfl (by decide) rfl rfl).2.2.2.2.2.2
      [⟨none, true⟩, ⟨none, true⟩] [⟨some [6], true⟩] [⟨none, true⟩]
      (by decide) (by decide) (by decide) (by decide) (by decide)⟩

end Gbalol
